import Mathlib

/-!
Verification development for the Project-Management-Portal backend
(`src/server.js`): a shallow embedding of its relational data model and of the
HTTP handlers the checked claims are about, together with proofs about them.

Tables are lists of row structures; `SERIAL` keys are modelled with an explicit
next-id counter; SQL `NULL` is `Option.none`; each Express handler becomes a
Lean function from its request body and the tables it touches to the new table
state and the JSON-ish response it sends.  External library behaviour that the
repository relies on (the `bcryptjs` hash, the JavaScript `JSON`, `String` and
truthiness primitives, and SQL text ordering) is modelled explicitly below,
executably, so that every theorem can be evaluated on concrete inputs.
-/

/-! ## SQL ordering: executable three-way comparators

`ORDER BY` on `TEXT` columns is modelled as codepoint-wise lexicographic
comparison; `ASC` places SQL `NULL` last and `DESC` places it first, as in
PostgreSQL.  The comparators are written from scratch so that they reduce
inside the kernel. -/

def cmpNat (a b : Nat) : Ordering :=
  if a < b then .lt else if b < a then .gt else .eq

def cmpInt (a b : Int) : Ordering :=
  if a < b then .lt else if b < a then .gt else .eq

def cmpChars : List Char → List Char → Ordering
  | [], [] => .eq
  | [], _ :: _ => .lt
  | _ :: _, [] => .gt
  | a :: as, b :: bs =>
    match cmpNat a.toNat b.toNat with
    | .eq => cmpChars as bs
    | o => o

def cmpStr (a b : String) : Ordering := cmpChars a.data b.data

/-- PostgreSQL `ASC` sorts `NULL` after every non-null value. -/
def cmpNullsLast {α : Type} (c : α → α → Ordering) : Option α → Option α → Ordering
  | none, none => .eq
  | none, some _ => .gt
  | some _, none => .lt
  | some x, some y => c x y

/-- PostgreSQL `DESC` is the exact reversal of `ASC` (so `NULL` comes first). -/
def cmpDesc {α : Type} (c : α → α → Ordering) (a b : α) : Ordering := (c a b).swap

/-- Composite `ORDER BY key1, key2`. -/
def cmpThen {α : Type} (c d : α → α → Ordering) (a b : α) : Ordering :=
  match c a b with
  | .eq => d a b
  | o => o

/-- Compare through a key projection, as `ORDER BY column` does. -/
def keyCmp {α β : Type} (f : α → β) (c : β → β → Ordering) (a b : α) : Ordering :=
  c (f a) (f b)

/-- The non-strict order induced by a comparator. -/
def ordLe {α : Type} (c : α → α → Ordering) (a b : α) : Prop := c a b ≠ Ordering.gt

instance {α : Type} (c : α → α → Ordering) (a b : α) : Decidable (ordLe c a b) :=
  if h : c a b = Ordering.gt then .isFalse (fun hn => hn h) else .isTrue h

/-- The row order an `ORDER BY` clause produces (ties keep table order, which a
stable sort models). -/
def sortRows {α : Type} (c : α → α → Ordering) (l : List α) : List α :=
  List.insertionSort (ordLe c) l

/-- The laws a comparator inherited from a linear order on the key satisfies;
enough to run `List.sorted_insertionSort` and to reason about ties. -/
structure LawfulCmp {α : Type} (c : α → α → Ordering) : Prop where
  swap_eq : ∀ a b, c b a = (c a b).swap
  eq_trans : ∀ a b d, c a b = .eq → c b d = .eq → c a d = .eq
  lt_trans : ∀ a b d, c a b = .lt → c b d = .lt → c a d = .lt
  lt_of_lt_of_eq : ∀ a b d, c a b = .lt → c b d = .eq → c a d = .lt
  lt_of_eq_of_lt : ∀ a b d, c a b = .eq → c b d = .lt → c a d = .lt

/-! ## JavaScript primitives used by the handlers -/

/-- Modelled from the spec: JavaScript truthiness of an optional string request
field — `undefined`/`null` and the empty string are falsy (`!email`). -/
def jsTruthy : Option String → Bool
  | none => false
  | some s => !(s == "")

/-- Modelled from the spec: JavaScript `a || b` on an optional string, used for
defaulting (`created_date || new Date().toISOString()`). -/
def jsOrStr (a : Option String) (b : String) : String :=
  match a with
  | none => b
  | some s => if s = "" then b else s

/-- Modelled from the spec: JavaScript `a || b` on an optional integer field —
note that `0` is falsy, exactly as in `reminder || 15`. -/
def jsOrInt (a : Option Int) (b : Int) : Int :=
  match a with
  | none => b
  | some n => if n = 0 then b else n

/-- Modelled from the spec: JavaScript truthiness of an optional boolean body
field, as used in `isAllDay ? 1 : 0`. -/
def jsTruthyB : Option Bool → Bool
  | none => false
  | some b => b

/-- Modelled from the spec: JavaScript `Boolean(x)` on an integer column value —
`null` and `0` give `false`, any other number gives `true`. -/
def jsBoolOfCol : Option Int → Bool
  | none => false
  | some n => !(n == 0)

def wsChar (c : Char) : Bool :=
  c == ' ' || c == '\t' || c == '\n' || c == '\r'

/-- Modelled from the spec: the `String.prototype.trim` used on emails,
written over the character list so it evaluates in the kernel. -/
def jsTrim (s : String) : String :=
  String.mk (((s.data.dropWhile wsChar).reverse.dropWhile wsChar).reverse)

def lowerChar (c : Char) : Char :=
  if 'A' ≤ c ∧ c ≤ 'Z' then Char.ofNat (c.toNat + 32) else c

/-- Modelled from the spec: `String.prototype.toLowerCase` (ASCII range), as
applied to emails before storage and lookup. -/
def jsToLower (s : String) : String := String.mk (s.data.map lowerChar)

/-- The email normalisation both auth handlers perform:
`email.toLowerCase().trim()`. -/
def normalizeEmail (e : String) : String := jsTrim (jsToLower e)

/-- Modelled from the spec: the external `bcryptjs` library.  A salted one-way
hash is abstracted as the pair of the salt and the hashed password; `compare`
checks the supplied password against the stored hash.  The fresh salt is an
input of the register handler (the library draws it randomly). -/
structure BcryptHash where
  salt : String
  pwd : String
deriving DecidableEq, Repr

def bcryptHashWith (salt pwd : String) : BcryptHash := ⟨salt, pwd⟩

def bcryptCompare (pwd : String) (h : BcryptHash) : Bool := pwd == h.pwd

/-! ## JSON values and the `JSON.stringify` / `JSON.parse` pair

Modelled from the spec: the built-in JavaScript `JSON` object (not part of this
repository), used by the profile handlers to serialise the list-valued fields
to `TEXT` columns and to decode them on read.  `Json` is the value domain; the
serializer and the recursive-descent reader below are executable, and the
round-trip law the spec relies on (`parse (stringify v) = v`) is proved, not
assumed. -/

mutual
inductive Json where
  | null : Json
  | bool (b : Bool) : Json
  | num (n : Int) : Json
  | str (s : String) : Json
  | arr (elems : Jarr) : Json
  | obj (fields : Jobj) : Json
deriving DecidableEq, Repr
inductive Jarr where
  | nil : Jarr
  | cons (hd : Json) (tl : Jarr) : Jarr
deriving DecidableEq, Repr
inductive Jobj where
  | nil : Jobj
  | cons (key : String) (val : Json) (tl : Jobj) : Jobj
deriving DecidableEq, Repr
end

def Jarr.length : Jarr → Nat
  | .nil => 0
  | .cons _ t => t.length + 1

def digitChar (d : Nat) : Char :=
  match d with
  | 0 => '0' | 1 => '1' | 2 => '2' | 3 => '3' | 4 => '4'
  | 5 => '5' | 6 => '6' | 7 => '7' | 8 => '8' | _ => '9'

def natCharsAux : Nat → Nat → List Char → List Char
  | 0, _, acc => acc
  | fuel + 1, n, acc =>
    if n < 10 then digitChar n :: acc
    else natCharsAux fuel (n / 10) (digitChar (n % 10) :: acc)

/-- Decimal digits of a natural number, most significant first. -/
def natChars (n : Nat) : List Char := natCharsAux (n + 1) n []

def intChars (n : Int) : List Char :=
  if n < 0 then '-' :: natChars n.natAbs else natChars n.toNat

/-- String-body escaping: the two characters that must be escaped for the
encoding to be injective (`"` and `\`). -/
def escChars : List Char → List Char
  | [] => []
  | c :: cs => if c = '"' ∨ c = '\\' then '\\' :: c :: escChars cs else c :: escChars cs

/-- An object key rendered with its quotes and the following colon. -/
def keyChars (k : String) : List Char := '"' :: (escChars k.data ++ ['"', ':'])

mutual
def strJ : Json → List Char
  | .null => ['n', 'u', 'l', 'l']
  | .bool b => if b then ['t', 'r', 'u', 'e'] else ['f', 'a', 'l', 's', 'e']
  | .num n => intChars n
  | .str s => '"' :: (escChars s.data ++ ['"'])
  | .arr .nil => ['[', ']']
  | .arr (.cons x xs) => '[' :: (strJ x ++ strTail xs ++ [']'])
  | .obj .nil => ['{', '}']
  | .obj (.cons k v fs) => '{' :: (keyChars k ++ strJ v ++ strFTail fs ++ ['}'])
def strTail : Jarr → List Char
  | .nil => []
  | .cons y ys => ',' :: (strJ y ++ strTail ys)
def strFTail : Jobj → List Char
  | .nil => []
  | .cons k v fs => ',' :: (keyChars k ++ strJ v ++ strFTail fs)
end

/-- `JSON.stringify`. -/
def jsonStringify (j : Json) : String := String.mk (strJ j)

/-- Read an exact literal, returning the remaining input. -/
def dropLit : List Char → List Char → Option (List Char)
  | [], cs => some cs
  | _ :: _, [] => none
  | p :: ps, c :: cs => if c = p then dropLit ps cs else none

/-- Read a string body up to the closing quote, undoing `escChars`. -/
def pStrAux : List Char → Option (List Char × List Char)
  | [] => none
  | c :: cs =>
    if c = '\\' then
      match cs with
      | [] => none
      | d :: cs2 =>
        match pStrAux cs2 with
        | some (s, r) => some (d :: s, r)
        | none => none
    else if c = '"' then some ([], cs)
    else
      match pStrAux cs with
      | some (s, r) => some (c :: s, r)
      | none => none

def digitVal (c : Char) : Nat := c.toNat - 48

def pNumAux : Nat → List Char → Nat × List Char
  | acc, [] => (acc, [])
  | acc, c :: cs =>
    if c.isDigit then pNumAux (acc * 10 + digitVal c) cs else (acc, c :: cs)

/-- Read a nonempty run of decimal digits. -/
def pNum : List Char → Option (Nat × List Char)
  | [] => none
  | c :: cs => if c.isDigit then some (pNumAux (digitVal c) cs) else none

/-- Result shaping helpers of the reader (named so proofs can step through the
reader one recursion level at a time). -/
def strRes (p : List Char × List Char) : Json × List Char := (Json.str (String.mk p.1), p.2)

def arrRes (p : Jarr × List Char) : Json × List Char := (Json.arr p.1, p.2)

def objRes (p : Jobj × List Char) : Json × List Char := (Json.obj p.1, p.2)

def negRes (p : Nat × List Char) : Json × List Char := (Json.num (-(p.1 : Int)), p.2)

def posRes (p : Nat × List Char) : Json × List Char := (Json.num (p.1 : Int), p.2)

def consRes (v : Json) (p : Jarr × List Char) : Jarr × List Char := (Jarr.cons v p.1, p.2)

def fconsRes (k : String) (v : Json) (p : Jobj × List Char) : Jobj × List Char :=
  (Jobj.cons k v p.1, p.2)

/-- One step of the value reader: dispatch on the first character.  The two
recursive entry points are passed in as functions of the remaining fuel. -/
def pValHead (elems : List Char → Option (Jarr × List Char))
    (fields : List Char → Option (Jobj × List Char)) (c : Char) (cs : List Char) :
    Option (Json × List Char) :=
  if c = 'n' then (dropLit ['u', 'l', 'l'] cs).map (Prod.mk Json.null)
  else if c = 't' then (dropLit ['r', 'u', 'e'] cs).map (Prod.mk (Json.bool true))
  else if c = 'f' then (dropLit ['a', 'l', 's', 'e'] cs).map (Prod.mk (Json.bool false))
  else if c = '"' then (pStrAux cs).map strRes
  else if c = '[' then
    match cs with
    | [] => none
    | c2 :: cs2 =>
      if c2 = ']' then some (Json.arr Jarr.nil, cs2)
      else (elems (c2 :: cs2)).map arrRes
  else if c = '{' then
    match cs with
    | [] => none
    | c2 :: cs2 =>
      if c2 = '}' then some (Json.obj Jobj.nil, cs2)
      else (fields (c2 :: cs2)).map objRes
  else if c = '-' then (pNum cs).map negRes
  else if c.isDigit then (pNum (c :: cs)).map posRes
  else none

/-- After an object member value: a comma continues the member list, a closing
brace ends it. -/
def fieldsValCont (next : List Char → Option (Jobj × List Char)) (k : String)
    (vr : Json × List Char) : Option (Jobj × List Char) :=
  match vr.2 with
  | [] => none
  | c3 :: r4 =>
    if c3 = ',' then (next r4).map (fconsRes k vr.1)
    else if c3 = '}' then some (Jobj.cons k vr.1 Jobj.nil, r4)
    else none

/-- After an object key: a colon introduces the value. -/
def fieldsKeyCont (val : List Char → Option (Json × List Char))
    (next : List Char → Option (Jobj × List Char)) (kr : List Char × List Char) :
    Option (Jobj × List Char) :=
  match kr.2 with
  | [] => none
  | c1 :: r2 =>
    if c1 = ':' then (val r2).bind (fieldsValCont next (String.mk kr.1))
    else none

/-- After an array element: a comma continues the element list, a closing
bracket ends it. -/
def elemsCont (next : List Char → Option (Jarr × List Char)) (vr : Json × List Char) :
    Option (Jarr × List Char) :=
  match vr.2 with
  | [] => none
  | c2 :: r2 =>
    if c2 = ',' then (next r2).map (consRes vr.1)
    else if c2 = ']' then some (Jarr.cons vr.1 Jarr.nil, r2)
    else none

/-- One step of the member reader: an object member starts with a quoted key. -/
def pFieldsBody (val : List Char → Option (Json × List Char))
    (next : List Char → Option (Jobj × List Char)) (cs : List Char) :
    Option (Jobj × List Char) :=
  match cs with
  | [] => none
  | c0 :: cs2 =>
    if c0 = '"' then (pStrAux cs2).bind (fieldsKeyCont val next)
    else none

mutual
def pVal : Nat → List Char → Option (Json × List Char)
  | 0, _ => none
  | _ + 1, [] => none
  | fuel + 1, c :: cs => pValHead (pElems fuel) (pFields fuel) c cs
def pElems : Nat → List Char → Option (Jarr × List Char)
  | 0, _ => none
  | fuel + 1, cs => (pVal fuel cs).bind (elemsCont (pElems fuel))
def pFields : Nat → List Char → Option (Jobj × List Char)
  | 0, _ => none
  | fuel + 1, cs => pFieldsBody (pVal fuel) (pFields fuel) cs
end

/-- `JSON.parse`, `none` when the input is rejected (JavaScript would throw).
The fuel is an upper bound on the reader's recursion depth; three times the
input length is proved sufficient for every serializer output below. -/
def jsonParse (s : String) : Option Json :=
  match pVal (3 * s.length + 3) s.data with
  | some (j, []) => some j
  | _ => none

/-! ## Users and the auth handlers (`POST /register`, `POST /login`) -/

/-- One row of the `users` table (`id SERIAL, email TEXT UNIQUE, password TEXT`;
the password column holds the bcrypt hash). -/
structure UserRow where
  id : Nat
  email : String
  password : BcryptHash
deriving DecidableEq, Repr

/-- The `users` table plus the `SERIAL` sequence state. -/
structure UsersDb where
  rows : List UserRow
  nextId : Nat
deriving DecidableEq, Repr

/-- An error response: HTTP status plus the `message`/`error` payload text. -/
structure ApiError where
  status : Nat
  message : String
deriving DecidableEq, Repr

/-- The success payload of `POST /register`: the `RETURNING id, email` row. -/
structure RegisterOk where
  id : Nat
  email : String
deriving DecidableEq, Repr

/-- The body of the auth endpooints: `{name?, email, password}`; fields a client
may omit are optional, and JavaScript treats the empty string as missing too. -/
structure AuthBody where
  name : Option String
  email : Option String
  password : Option String
deriving DecidableEq, Repr

/-- `POST /register` (src/server.js:258-291).  Presence validation, then the
6-character password rule, then `INSERT` of the normalised email with the
bcrypt hash; a unique-constraint violation (`23505`) on `users.email` is
answered with the 400 conflict.  `salt` stands for the random salt `bcrypt.hash`
draws. -/
def register (salt : String) (b : AuthBody) (db : UsersDb) :
    UsersDb × Except ApiError RegisterOk :=
  match b.email, b.password with
  | some e, some p =>
    if e = "" ∨ p = "" then (db, .error ⟨400, "Email and password are required."⟩)
    else if p.length < 6 then
      (db, .error ⟨400, "Password must be at least 6 characters long."⟩)
    else
      let norm := normalizeEmail e
      if db.rows.any (fun u => u.email == norm) then
        (db, .error ⟨400, "User already exists."⟩)
      else
        (⟨db.rows ++ [⟨db.nextId, norm, bcryptHashWith salt p⟩], db.nextId + 1⟩,
          .ok ⟨db.nextId, norm⟩)
  | _, _ => (db, .error ⟨400, "Email and password are required."⟩)

/-- The success payload of `POST /login` (`{success, email, message}`). -/
structure LoginOk where
  email : String
deriving DecidableEq, Repr

/-- `POST /login` (src/server.js:330-363).  Looks the normalised email up
(`rows[0]` of the `SELECT`), compares the password against the stored hash, and
answers the same generic 400 for an unknown email and for a mismatch. -/
def login (b : AuthBody) (db : UsersDb) : Except ApiError LoginOk :=
  match b.email, b.password with
  | some e, some p =>
    if e = "" ∨ p = "" then .error ⟨400, "Email and password are required."⟩
    else
      match db.rows.find? (fun u => u.email == normalizeEmail e) with
      | none => .error ⟨400, "Invalid credentials."⟩
      | some u =>
        if bcryptCompare p u.password then .ok ⟨u.email⟩
        else .error ⟨400, "Invalid credentials."⟩
  | _, _ => .error ⟨400, "Email and password are required."⟩

/-! ## Career goals and their stage history -/

/-- One row of `career_goals` (src/server.js:131-146). -/
structure CareerGoalRow where
  id : Nat
  user_email : Option String
  title : Option String
  description : Option String
  progress : Option Int
  goal_type : Option String
  target_date : Option String
  created_date : Option String
  total_stages : Option Int
  current_stage : Option Int
  start_date : Option String
  stage_description : Option String
deriving DecidableEq, Repr

/-- One row of `career_stage_history` (src/server.js:149-157); `goal_id`
references `career_goals(id) ON DELETE CASCADE`. -/
structure StageHistoryRow where
  id : Nat
  goal_id : Option Nat
  stage : Option Int
  description : Option String
  updated_date : Option String
deriving DecidableEq, Repr

/-- The two career tables plus their `SERIAL` sequence states. -/
structure CareerDb where
  goals : List CareerGoalRow
  nextGoalId : Nat
  history : List StageHistoryRow
  nextHistoryId : Nat
deriving DecidableEq, Repr

/-- The body of `POST /career_goals`. -/
structure CareerGoalBody where
  user_email : Option String
  title : Option String
  description : Option String
  progress : Option Int
  goal_type : Option String
  target_date : Option String
  total_stages : Option Int
  current_stage : Option Int
  start_date : Option String
  stage_description : Option String
  created_date : Option String
deriving DecidableEq, Repr

/-- `POST /career_goals` (src/server.js:712-736): `created_date || now`, the
`|| 0` / `|| 'general'` / `|| 5` defaults, `RETURNING *`. -/
def postCareerGoal (b : CareerGoalBody) (now : String) (db : CareerDb) :
    CareerDb × CareerGoalRow :=
  let row : CareerGoalRow :=
    { id := db.nextGoalId
      user_email := b.user_email
      title := b.title
      description := b.description
      progress := some (jsOrInt b.progress 0)
      goal_type := some (jsOrStr b.goal_type "general")
      target_date := b.target_date
      created_date := some (jsOrStr b.created_date now)
      total_stages := some (jsOrInt b.total_stages 5)
      current_stage := some (jsOrInt b.current_stage 0)
      start_date := b.start_date
      stage_description := b.stage_description }
  ({ db with goals := db.goals ++ [row], nextGoalId := db.nextGoalId + 1 }, row)

/-- `ORDER BY created_date DESC` of the career-goal list endpoints. -/
def careerGoalsOrder : CareerGoalRow → CareerGoalRow → Ordering :=
  keyCmp (fun r => r.created_date) (cmpDesc (cmpNullsLast cmpStr))

/-- `GET /career_goals/:email` (src/server.js:686-697; `/career/:email` at
699-710 runs the same query). -/
def getCareerGoals (db : CareerDb) (email : String) : List CareerGoalRow :=
  sortRows careerGoalsOrder (db.goals.filter (fun r => r.user_email == some email))

/-- `DELETE /career_goals/:id` (src/server.js:764-776): first the explicit
`DELETE FROM career_stage_history WHERE goal_id = $1`, then the goal delete,
whose row count is the response.  (The `ON DELETE CASCADE` on `goal_id` would
remove the same history rows.) -/
def deleteCareerGoal (gid : Nat) (db : CareerDb) : CareerDb × Nat :=
  let db1 := { db with history := db.history.filter (fun h => !(h.goal_id == some gid)) }
  let deleted := (db1.goals.filter (fun g => g.id == gid)).length
  ({ db1 with goals := db1.goals.filter (fun g => !(g.id == gid)) }, deleted)

/-- `ORDER BY stage ASC, updated_date DESC` of the stage-history list. -/
def stageHistoryOrder : StageHistoryRow → StageHistoryRow → Ordering :=
  cmpThen (keyCmp (fun r => r.stage) (cmpNullsLast cmpInt))
    (keyCmp (fun r => r.updated_date) (cmpDesc (cmpNullsLast cmpStr)))

/-- `GET /career_goals/:id/history` (src/server.js:779-790). -/
def getStageHistory (db : CareerDb) (gid : Nat) : List StageHistoryRow :=
  sortRows stageHistoryOrder (db.history.filter (fun h => h.goal_id == some gid))

/-- `DELETE /career_goals/:goalId/history/:historyId` (src/server.js:808-819):
`DELETE FROM career_stage_history WHERE id = $1 AND goal_id = $2`. -/
def deleteStageHistoryEntry (gid hid : Nat) (db : CareerDb) : CareerDb × Nat :=
  let deleted := (db.history.filter (fun h => h.id == hid && h.goal_id == some gid)).length
  ({ db with history := db.history.filter (fun h => !(h.id == hid && h.goal_id == some gid)) },
    deleted)

/-! ## Ideas, notes, future work, deadlines -/

/-- One row of `ideas` (src/server.js:110-119). -/
structure IdeaRow where
  id : Nat
  user_email : Option String
  title : Option String
  content : Option String
  category : Option String
  created_date : Option String
deriving DecidableEq, Repr

/-- The `ideas` table plus its `SERIAL` sequence state. -/
structure IdeasDb where
  rows : List IdeaRow
  nextId : Nat
deriving DecidableEq, Repr

/-- The body of `POST /ideas`. -/
structure IdeaBody where
  user_email : Option String
  title : Option String
  content : Option String
  category : Option String
  created_date : Option String
deriving DecidableEq, Repr

/-- `POST /ideas` (src/server.js:593-606): `created_date || now`,
`category || 'general'`, `RETURNING *`. -/
def postIdea (b : IdeaBody) (now : String) (db : IdeasDb) : IdeasDb × IdeaRow :=
  let row : IdeaRow :=
    { id := db.nextId
      user_email := b.user_email
      title := b.title
      content := b.content
      category := some (jsOrStr b.category "general")
      created_date := some (jsOrStr b.created_date now) }
  ({ rows := db.rows ++ [row], nextId := db.nextId + 1 }, row)

/-- `ORDER BY created_date DESC` of the idea list. -/
def ideasOrder : IdeaRow → IdeaRow → Ordering :=
  keyCmp (fun r => r.created_date) (cmpDesc (cmpNullsLast cmpStr))

/-- `GET /ideas/:email` (src/server.js:580-591). -/
def getIdeas (db : IdeasDb) (email : String) : List IdeaRow :=
  sortRows ideasOrder (db.rows.filter (fun r => r.user_email == some email))

/-- The body of `PUT /ideas/:id` (only these three fields are written). -/
structure IdeaUpdateBody where
  title : Option String
  content : Option String
  category : Option String
deriving DecidableEq, Repr

/-- `PUT /ideas/:id` (src/server.js:608-620): full replace of the three fields
by id, answering `{updated: rowCount}`. -/
def putIdea (iid : Nat) (b : IdeaUpdateBody) (db : IdeasDb) : IdeasDb × Nat :=
  let updated := (db.rows.filter (fun r => r.id == iid)).length
  ({ db with rows := db.rows.map (fun r =>
      if r.id == iid then
        { r with title := b.title, content := b.content, category := b.category }
      else r) },
    updated)

/-- `DELETE /ideas/:id` (src/server.js:622-630), answering `{deleted: rowCount}`. -/
def deleteIdea (iid : Nat) (db : IdeasDb) : IdeasDb × Nat :=
  let deleted := (db.rows.filter (fun r => r.id == iid)).length
  ({ db with rows := db.rows.filter (fun r => !(r.id == iid)) }, deleted)

/-- One row of `notes` (src/server.js:121-129). -/
structure NoteRow where
  id : Nat
  user_email : Option String
  title : Option String
  content : Option String
  created_date : Option String
deriving DecidableEq, Repr

/-- The `notes` table plus its `SERIAL` sequence state. -/
structure NotesDb where
  rows : List NoteRow
  nextId : Nat
deriving DecidableEq, Repr

/-- The body of `POST /notes`. -/
structure NoteBody where
  user_email : Option String
  title : Option String
  content : Option String
  created_date : Option String
deriving DecidableEq, Repr

/-- `POST /notes` (src/server.js:646-659): `created_date || now`. -/
def postNote (b : NoteBody) (now : String) (db : NotesDb) : NotesDb × NoteRow :=
  let row : NoteRow :=
    { id := db.nextId
      user_email := b.user_email
      title := b.title
      content := b.content
      created_date := some (jsOrStr b.created_date now) }
  ({ rows := db.rows ++ [row], nextId := db.nextId + 1 }, row)

/-- `ORDER BY created_date DESC` of the note list. -/
def notesOrder : NoteRow → NoteRow → Ordering :=
  keyCmp (fun r => r.created_date) (cmpDesc (cmpNullsLast cmpStr))

/-- `GET /notes/:email` (src/server.js:633-644). -/
def getNotes (db : NotesDb) (email : String) : List NoteRow :=
  sortRows notesOrder (db.rows.filter (fun r => r.user_email == some email))

/-- One row of `future_work` (src/server.js:159-169). -/
structure FutureWorkRow where
  id : Nat
  user_email : Option String
  title : Option String
  description : Option String
  priority : Option String
  timeline : Option String
  created_date : Option String
deriving DecidableEq, Repr

/-- The `future_work` table plus its `SERIAL` sequence state. -/
structure FutureWorkDb where
  rows : List FutureWorkRow
  nextId : Nat
deriving DecidableEq, Repr

/-- The body of `POST /future_work`. -/
structure FutureWorkBody where
  user_email : Option String
  title : Option String
  description : Option String
  priority : Option String
  timeline : Option String
  created_date : Option String
deriving DecidableEq, Repr

/-- `POST /future_work` (src/server.js:848-862): `created_date || now`,
`priority || 'medium'`. -/
def postFutureWork (b : FutureWorkBody) (now : String) (db : FutureWorkDb) :
    FutureWorkDb × FutureWorkRow :=
  let row : FutureWorkRow :=
    { id := db.nextId
      user_email := b.user_email
      title := b.title
      description := b.description
      priority := some (jsOrStr b.priority "medium")
      timeline := b.timeline
      created_date := some (jsOrStr b.created_date now) }
  ({ rows := db.rows ++ [row], nextId := db.nextId + 1 }, row)

/-- `ORDER BY created_date DESC` of the future-work list. -/
def futureWorkOrder : FutureWorkRow → FutureWorkRow → Ordering :=
  keyCmp (fun r => r.created_date) (cmpDesc (cmpNullsLast cmpStr))

/-- `GET /future_work/:email` (src/server.js:821-832; the `/future/:email`
alias at 834-845 runs the same query). -/
def getFutureWork (db : FutureWorkDb) (email : String) : List FutureWorkRow :=
  sortRows futureWorkOrder (db.rows.filter (fun r => r.user_email == some email))

/-- One row of `deadlines` (src/server.js:171-182). -/
structure DeadlineRow where
  id : Nat
  user_email : Option String
  title : Option String
  description : Option String
  due_date : Option String
  priority : Option String
  status : Option String
  created_date : Option String
deriving DecidableEq, Repr

/-- The `deadlines` table plus its `SERIAL` sequence state. -/
structure DeadlinesDb where
  rows : List DeadlineRow
  nextId : Nat
deriving DecidableEq, Repr

/-- The body of `POST /deadlines`. -/
structure DeadlineBody where
  user_email : Option String
  title : Option String
  description : Option String
  due_date : Option String
  priority : Option String
  status : Option String
  created_date : Option String
deriving DecidableEq, Repr

/-- `POST /deadlines` (src/server.js:902-916): `created_date || now`,
`priority || 'medium'`, `status || 'pending'`. -/
def postDeadline (b : DeadlineBody) (now : String) (db : DeadlinesDb) :
    DeadlinesDb × DeadlineRow :=
  let row : DeadlineRow :=
    { id := db.nextId
      user_email := b.user_email
      title := b.title
      description := b.description
      due_date := b.due_date
      priority := some (jsOrStr b.priority "medium")
      status := some (jsOrStr b.status "pending")
      created_date := some (jsOrStr b.created_date now) }
  ({ rows := db.rows ++ [row], nextId := db.nextId + 1 }, row)

/-- `ORDER BY due_date ASC` of the deadline list. -/
def deadlinesOrder : DeadlineRow → DeadlineRow → Ordering :=
  keyCmp (fun r => r.due_date) (cmpNullsLast cmpStr)

/-- `GET /deadlines/:email` (src/server.js:889-900). -/
def getDeadlines (db : DeadlinesDb) (email : String) : List DeadlineRow :=
  sortRows deadlinesOrder (db.rows.filter (fun r => r.user_email == some email))

/-! ## Calendar events (enhanced `/events` API and legacy `/calendar_events`) -/

/-- One row of `calendar_events` (src/server.js:185-210).  The three boolean
attributes are 0/1 `INTEGER` columns. -/
structure EventRow where
  id : Nat
  user_email : Option String
  title : Option String
  description : Option String
  event_date : Option String
  start_time : Option String
  end_time : Option String
  location : Option String
  category : Option String
  attendees : Option String
  reminder : Option Int
  is_all_day : Option Int
  recurrence : Option String
  recurrence_end : Option String
  show_as : Option String
  priority : Option String
  is_online : Option Int
  meeting_link : Option String
  attachments : Option String
  repeat_weekly : Option Int
  created_date : Option String
  modified_date : Option String
deriving DecidableEq, Repr

/-- The `calendar_events` table plus its `SERIAL` sequence state. -/
structure EventsDb where
  rows : List EventRow
  nextId : Nat
deriving DecidableEq, Repr

/-- The body of `POST /events` (src/server.js:970-974).  `endTime` stands for
the body's `end` field (a Lean keyword).  A `created_date` member is carried so
that a request supplying one can be expressed: the handler never destructures
it, so it is ignored. -/
structure EventBody where
  userEmail : Option String
  title : Option String
  description : Option String
  date : Option String
  start : Option String
  endTime : Option String
  location : Option String
  category : Option String
  attendees : Option String
  reminder : Option Int
  isAllDay : Option Bool
  recurrence : Option String
  recurrenceEnd : Option String
  showAs : Option String
  priority : Option String
  isOnline : Option Bool
  meetingLink : Option String
  attachments : Option String
  repeatWeekly : Option Bool
  created_date : Option String
deriving DecidableEq, Repr

/-- `POST /events` (src/server.js:969-998): stamps `created_date` and
`modified_date` with the current server time, stores the booleans as
`isAllDay ? 1 : 0`, applies `|| 'Work'`, `|| 15`, `|| 'none'`, `|| 'busy'`,
`|| 'normal'` defaults, `RETURNING *`. -/
def postEvent (b : EventBody) (now : String) (db : EventsDb) : EventsDb × EventRow :=
  let row : EventRow :=
    { id := db.nextId
      user_email := b.userEmail
      title := b.title
      description := b.description
      event_date := b.date
      start_time := b.start
      end_time := b.endTime
      location := b.location
      category := some (jsOrStr b.category "Work")
      attendees := b.attendees
      reminder := some (jsOrInt b.reminder 15)
      is_all_day := some (if jsTruthyB b.isAllDay then 1 else 0)
      recurrence := some (jsOrStr b.recurrence "none")
      recurrence_end := b.recurrenceEnd
      show_as := some (jsOrStr b.showAs "busy")
      priority := some (jsOrStr b.priority "normal")
      is_online := some (if jsTruthyB b.isOnline then 1 else 0)
      meeting_link := b.meetingLink
      attachments := b.attachments
      repeat_weekly := some (if jsTruthyB b.repeatWeekly then 1 else 0)
      created_date := some now
      modified_date := some now }
  ({ rows := db.rows ++ [row], nextId := db.nextId + 1 }, row)

/-- `ORDER BY event_date ASC, start_time ASC` of `GET /events/:email`. -/
def eventsOrder : EventRow → EventRow → Ordering :=
  cmpThen (keyCmp (fun r => r.event_date) (cmpNullsLast cmpStr))
    (keyCmp (fun r => r.start_time) (cmpNullsLast cmpStr))

/-- The SQL part of `GET /events/:email` (src/server.js:943-954). -/
def getEvents (db : EventsDb) (email : String) : List EventRow :=
  sortRows eventsOrder (db.rows.filter (fun r => r.user_email == some email))

def jStrOpt : Option String → Json
  | none => .null
  | some s => .str s

def jIntOpt : Option Int → Json
  | none => .null
  | some n => .num n

def jobjOfList : List (String × Json) → Jobj
  | [] => .nil
  | (k, v) :: t => .cons k v (jobjOfList t)

def jarrOfList : List Json → Jarr
  | [] => .nil
  | j :: t => .cons j (jarrOfList t)

def jsonLookupObj (k : String) : Jobj → Option Json
  | .nil => none
  | .cons k2 v t => if k2 = k then some v else jsonLookupObj k t

/-- Look a key up in a JSON object (JavaScript member access on the response). -/
def jsonLookup (k : String) : Json → Option Json
  | .obj fs => jsonLookupObj k fs
  | _ => none

/-- One row of the `GET /events/:email` response (src/server.js:946-961).  The
`SELECT` aliases come back from PostgreSQL lowercased (`isallday`, ...); the
handler spreads that row and then adds the camelCase `isAllDay` / `isOnline` /
`repeatWeekly` members with `Boolean(...)` applied, so both spellings appear in
the JSON, the camelCase ones holding booleans. -/
def eventResponseRow (r : EventRow) : Json :=
  Json.obj (jobjOfList
    [("id", .num (r.id : Int)),
     ("title", jStrOpt r.title),
     ("description", jStrOpt r.description),
     ("date", jStrOpt r.event_date),
     ("start", jStrOpt r.start_time),
     ("end", jStrOpt r.end_time),
     ("location", jStrOpt r.location),
     ("category", jStrOpt r.category),
     ("attendees", jStrOpt r.attendees),
     ("reminder", jIntOpt r.reminder),
     ("isallday", jIntOpt r.is_all_day),
     ("recurrence", jStrOpt r.recurrence),
     ("recurrenceend", jStrOpt r.recurrence_end),
     ("showas", jStrOpt r.show_as),
     ("priority", jStrOpt r.priority),
     ("isonline", jIntOpt r.is_online),
     ("meetinglink", jStrOpt r.meeting_link),
     ("attachments", jStrOpt r.attachments),
     ("repeatweekly", jIntOpt r.repeat_weekly),
     ("createdDate", jStrOpt r.created_date),
     ("modifiedDate", jStrOpt r.modified_date),
     ("isAllDay", .bool (jsBoolOfCol r.is_all_day)),
     ("isOnline", .bool (jsBoolOfCol r.is_online)),
     ("repeatWeekly", .bool (jsBoolOfCol r.repeat_weekly))])

/-- The full JSON response of `GET /events/:email`. -/
def getEventsResponse (db : EventsDb) (email : String) : Json :=
  Json.arr (jarrOfList ((getEvents db email).map eventResponseRow))

/-- `ORDER BY event_date ASC` — all the legacy list endpoint orders by. -/
def legacyEventsOrder : EventRow → EventRow → Ordering :=
  keyCmp (fun r => r.event_date) (cmpNullsLast cmpStr)

/-- The SQL part of the legacy `GET /calendar_events/:email`
(src/server.js:1043-1054): `SELECT *`, no renaming, no boolean conversion. -/
def getCalendarEventsLegacy (db : EventsDb) (email : String) : List EventRow :=
  sortRows legacyEventsOrder (db.rows.filter (fun r => r.user_email == some email))

/-- One row of the legacy response: the stored row serialised verbatim, column
names and 0/1 integers included. -/
def legacyEventRowJson (r : EventRow) : Json :=
  Json.obj (jobjOfList
    [("id", .num (r.id : Int)),
     ("user_email", jStrOpt r.user_email),
     ("title", jStrOpt r.title),
     ("description", jStrOpt r.description),
     ("event_date", jStrOpt r.event_date),
     ("start_time", jStrOpt r.start_time),
     ("end_time", jStrOpt r.end_time),
     ("location", jStrOpt r.location),
     ("category", jStrOpt r.category),
     ("attendees", jStrOpt r.attendees),
     ("reminder", jIntOpt r.reminder),
     ("is_all_day", jIntOpt r.is_all_day),
     ("recurrence", jStrOpt r.recurrence),
     ("recurrence_end", jStrOpt r.recurrence_end),
     ("show_as", jStrOpt r.show_as),
     ("priority", jStrOpt r.priority),
     ("is_online", jIntOpt r.is_online),
     ("meeting_link", jStrOpt r.meeting_link),
     ("attachments", jStrOpt r.attachments),
     ("repeat_weekly", jIntOpt r.repeat_weekly),
     ("created_date", jStrOpt r.created_date),
     ("modified_date", jStrOpt r.modified_date)])

/-- The full JSON response of the legacy `GET /calendar_events/:email`. -/
def getCalendarEventsLegacyResponse (db : EventsDb) (email : String) : Json :=
  Json.arr (jarrOfList ((getCalendarEventsLegacy db email).map legacyEventRowJson))

/-- The body of the legacy `POST /calendar_events` (src/server.js:1057). -/
structure LegacyEventBody where
  user_email : Option String
  title : Option String
  description : Option String
  event_date : Option String
  start_time : Option String
  end_time : Option String
  repeat_weekly : Option Int
  created_date : Option String
deriving DecidableEq, Repr

/-- The legacy `POST /calendar_events` (src/server.js:1056-1070): inserts only
eight columns with `created_date || now`; every other column takes its SQL
default (`category 'Work'`, `reminder 15`, the 0 booleans, `recurrence 'none'`,
`show_as 'busy'`, `priority 'normal'`), and `repeat_weekly` is passed through
unconverted. -/
def postCalendarEventLegacy (b : LegacyEventBody) (now : String) (db : EventsDb) :
    EventsDb × EventRow :=
  let row : EventRow :=
    { id := db.nextId
      user_email := b.user_email
      title := b.title
      description := b.description
      event_date := b.event_date
      start_time := b.start_time
      end_time := b.end_time
      location := none
      category := some "Work"
      attendees := none
      reminder := some 15
      is_all_day := some 0
      recurrence := some "none"
      recurrence_end := none
      show_as := some "busy"
      priority := some "normal"
      is_online := some 0
      meeting_link := none
      attachments := none
      repeat_weekly := b.repeat_weekly
      created_date := some (jsOrStr b.created_date now)
      modified_date := none }
  ({ rows := db.rows ++ [row], nextId := db.nextId + 1 }, row)

/-! ## Profiles -/

/-- One row of `profiles` (src/server.js:213-240); the five list-valued fields
hold `JSON.stringify` output as `TEXT`. -/
structure ProfileRow where
  id : Nat
  user_email : Option String
  full_name : Option String
  designation : Option String
  department : Option String
  institution : Option String
  office_address : Option String
  official_email : Option String
  alternate_email : Option String
  phone : Option String
  website : Option String
  degrees : Option String
  employment : Option String
  research_keywords : Option String
  research_description : Option String
  scholar_link : Option String
  courses : Option String
  grants : Option String
  professional_activities : Option String
  awards : Option String
  skills : Option String
  outreach_service : Option String
  created_date : Option String
  modified_date : Option String
deriving DecidableEq, Repr

/-- The `profiles` table plus its `SERIAL` sequence state. -/
structure ProfilesDb where
  rows : List ProfileRow
  nextId : Nat
deriving DecidableEq, Repr

/-- The body of `POST /profile` (src/server.js:1143-1149); the five list
fields arrive as JSON arrays.  A `created_date` member is carried so that a
request supplying one can be expressed: the handler's destructuring never
reads it, so it is ignored. -/
structure ProfileBody where
  userEmail : Option String
  fullName : Option String
  designation : Option String
  department : Option String
  institution : Option String
  officeAddress : Option String
  officialEmail : Option String
  alternateEmail : Option String
  phone : Option String
  website : Option String
  degrees : Option Jarr
  employment : Option Jarr
  researchKeywords : Option String
  researchDescription : Option String
  scholarLink : Option String
  courses : Option Jarr
  grants : Option Jarr
  professionalActivities : Option String
  awards : Option Jarr
  skills : Option String
  outreachService : Option String
  created_date : Option String
deriving DecidableEq, Repr

/-- The `UPDATE profiles SET ...` assignment list of the upsert's update arm
(src/server.js:1171-1188): all 20 mutable columns from the body — the five list
fields as `JSON.stringify(x || [])` text — plus the refreshed `modified_date`;
`id`, `user_email` and `created_date` are untouched. -/
def profileUpdateRow (b : ProfileBody) (modNow : String) (r : ProfileRow) : ProfileRow :=
  { r with
    full_name := b.fullName
    designation := b.designation
    department := b.department
    institution := b.institution
    office_address := b.officeAddress
    official_email := b.officialEmail
    alternate_email := b.alternateEmail
    phone := b.phone
    website := b.website
    degrees := some (jsonStringify (.arr (b.degrees.getD .nil)))
    employment := some (jsonStringify (.arr (b.employment.getD .nil)))
    research_keywords := b.researchKeywords
    research_description := b.researchDescription
    scholar_link := b.scholarLink
    courses := some (jsonStringify (.arr (b.courses.getD .nil)))
    grants := some (jsonStringify (.arr (b.grants.getD .nil)))
    professional_activities := b.professionalActivities
    awards := some (jsonStringify (.arr (b.awards.getD .nil)))
    skills := b.skills
    outreach_service := b.outreachService
    modified_date := some modNow }

/-- The `INSERT INTO profiles ...` row of the upsert's insert arm
(src/server.js:1192-1208): both timestamps stamped. -/
def profileNewRow (b : ProfileBody) (modNow createdNow : String) (id : Nat) : ProfileRow :=
  { id := id
    user_email := b.userEmail
    full_name := b.fullName
    designation := b.designation
    department := b.department
    institution := b.institution
    office_address := b.officeAddress
    official_email := b.officialEmail
    alternate_email := b.alternateEmail
    phone := b.phone
    website := b.website
    degrees := some (jsonStringify (.arr (b.degrees.getD .nil)))
    employment := some (jsonStringify (.arr (b.employment.getD .nil)))
    research_keywords := b.researchKeywords
    research_description := b.researchDescription
    scholar_link := b.scholarLink
    courses := some (jsonStringify (.arr (b.courses.getD .nil)))
    grants := some (jsonStringify (.arr (b.grants.getD .nil)))
    professional_activities := b.professionalActivities
    awards := some (jsonStringify (.arr (b.awards.getD .nil)))
    skills := b.skills
    outreach_service := b.outreachService
    created_date := some createdNow
    modified_date := some modNow }

/-- `POST /profile` (src/server.js:1142-1215): rejects a missing `userEmail`
with 400; serialises the list fields with `JSON.stringify(x || [])`; then
checks existence by `user_email` and either updates every matching row
(refreshing `modified_date` to `modNow`) or inserts one new row (stamping
`created_date` with `createdNow`). -/
def postProfile (b : ProfileBody) (modNow createdNow : String) (db : ProfilesDb) :
    ProfilesDb × Except ApiError String :=
  match b.userEmail with
  | none => (db, .error ⟨400, "User email is required."⟩)
  | some ue =>
    if ue = "" then (db, .error ⟨400, "User email is required."⟩)
    else if db.rows.any (fun r => r.user_email == some ue) then
      ({ db with rows := db.rows.map (fun r =>
          if r.user_email == some ue then profileUpdateRow b modNow r else r) },
        .ok "Profile updated successfully")
    else
      ({ rows := db.rows ++ [profileNewRow b modNow createdNow db.nextId],
         nextId := db.nextId + 1 },
        .ok "Profile created successfully")

/-- The camelCase projection `GET /profile/:email` answers
(src/server.js:1111-1133), with the five list fields decoded. -/
structure ProfileView where
  userEmail : Option String
  fullName : Option String
  designation : Option String
  department : Option String
  institution : Option String
  officeAddress : Option String
  officialEmail : Option String
  alternateEmail : Option String
  phone : Option String
  website : Option String
  degrees : Json
  employment : Json
  researchKeywords : Option String
  researchDescription : Option String
  scholarLink : Option String
  courses : Json
  grants : Json
  professionalActivities : Option String
  awards : Json
  skills : Option String
  outreachService : Option String
deriving DecidableEq, Repr

/-- The read of one stored list field: `row.x ? JSON.parse(row.x) : []` —
`NULL` and the empty string are falsy and short-circuit to the empty list; a
parse failure would throw into the handler's catch, which answers 500. -/
def parseListField (v : Option String) : Except ApiError Json :=
  match v with
  | none => .ok (Json.arr .nil)
  | some s =>
    if s = "" then .ok (Json.arr .nil)
    else
      match jsonParse s with
      | some j => .ok j
      | none => .error ⟨500, "Error fetching profile."⟩

/-- `GET /profile/:email` (src/server.js:1097-1140): `null` when no row
matches, otherwise the camelCase projection of `rows[0]`. -/
def getProfile (db : ProfilesDb) (email : String) : Except ApiError (Option ProfileView) :=
  match db.rows.find? (fun r => r.user_email == some email) with
  | none => .ok none
  | some row => do
    let dg ← parseListField row.degrees
    let em ← parseListField row.employment
    let co ← parseListField row.courses
    let gr ← parseListField row.grants
    let aw ← parseListField row.awards
    pure (some
      { userEmail := row.user_email
        fullName := row.full_name
        designation := row.designation
        department := row.department
        institution := row.institution
        officeAddress := row.office_address
        officialEmail := row.official_email
        alternateEmail := row.alternate_email
        phone := row.phone
        website := row.website
        degrees := dg
        employment := em
        researchKeywords := row.research_keywords
        researchDescription := row.research_description
        scholarLink := row.scholar_link
        courses := co
        grants := gr
        professionalActivities := row.professional_activities
        awards := aw
        skills := row.skills
        outreachService := row.outreach_service })

/-- How many profile rows a given `user_email` owns. -/
def profileCount (db : ProfilesDb) (email : String) : Nat :=
  (db.rows.filter (fun r => r.user_email == some email)).length

/-! ## Projects and meetings -/

/-- One row of the wide `projects` table (src/server.js:49-89). -/
structure ProjectRow where
  id : Nat
  name : Option String
  owner_email : Option String
  colleagues : Option String
  progress : Option Int
  project_title : Option String
  notes : Option String
  colleague_name : Option String
  colleague_phone : Option String
  colleague_email : Option String
  colleague_address1 : Option String
  colleague_address2 : Option String
  colleague_address3 : Option String
  your_name : Option String
  your_phone : Option String
  your_email : Option String
  your_address1 : Option String
  your_address2 : Option String
  your_address3 : Option String
  objectives : Option String
  timeline : Option String
  primary_audience : Option String
  secondary_audience : Option String
  call_action : Option String
  competition : Option String
  graphics : Option String
  photography : Option String
  multimedia : Option String
  other_info : Option String
  client_name : Option String
  client_comments : Option String
  approval_date : Option String
  approval_signature : Option String
  idea : Option String
  career_goals : Option String
  future_work : Option String
  deadlines : Option String
deriving DecidableEq, Repr

/-- `GET /projects/:email` (src/server.js:385-396): a plain
`SELECT * FROM projects WHERE owner_email = $1` with no `ORDER BY`, so rows
come back in stored order.  (The table has no `created_date` column at all.) -/
def getProjects (tbl : List ProjectRow) (email : String) : List ProjectRow :=
  tbl.filter (fun r => r.owner_email == some email)

/-- The 28-field camelCase body of `PUT /projects/:id/description`
(src/server.js:504-511), which is also the shape of the `data` the handler
answers with. -/
structure DescBody where
  projectTitle : Option String
  notes : Option String
  colleagueName : Option String
  colleaguePhone : Option String
  colleagueEmail : Option String
  colleagueAddress1 : Option String
  colleagueAddress2 : Option String
  colleagueAddress3 : Option String
  yourName : Option String
  yourPhone : Option String
  yourEmail : Option String
  yourAddress1 : Option String
  yourAddress2 : Option String
  yourAddress3 : Option String
  objectives : Option String
  timeline : Option String
  primaryAudience : Option String
  secondaryAudience : Option String
  callAction : Option String
  competition : Option String
  graphics : Option String
  photography : Option String
  multimedia : Option String
  otherInfo : Option String
  clientName : Option String
  clientComments : Option String
  approvalDate : Option String
  approvalSignature : Option String
deriving DecidableEq, Repr

/-- A `DescBody` with every field absent. -/
def descBodyNone : DescBody :=
  { projectTitle := none, notes := none, colleagueName := none,
    colleaguePhone := none, colleagueEmail := none, colleagueAddress1 := none,
    colleagueAddress2 := none, colleagueAddress3 := none, yourName := none,
    yourPhone := none, yourEmail := none, yourAddress1 := none,
    yourAddress2 := none, yourAddress3 := none, objectives := none,
    timeline := none, primaryAudience := none, secondaryAudience := none,
    callAction := none, competition := none, graphics := none,
    photography := none, multimedia := none, otherInfo := none,
    clientName := none, clientComments := none, approvalDate := none,
    approvalSignature := none }

/-- The `UPDATE projects SET ...` of the description endpoint: all 28
description columns replaced from the body (absent body fields write `NULL`). -/
def applyDesc (b : DescBody) (r : ProjectRow) : ProjectRow :=
  { r with
    project_title := b.projectTitle
    notes := b.notes
    colleague_name := b.colleagueName
    colleague_phone := b.colleaguePhone
    colleague_email := b.colleagueEmail
    colleague_address1 := b.colleagueAddress1
    colleague_address2 := b.colleagueAddress2
    colleague_address3 := b.colleagueAddress3
    your_name := b.yourName
    your_phone := b.yourPhone
    your_email := b.yourEmail
    your_address1 := b.yourAddress1
    your_address2 := b.yourAddress2
    your_address3 := b.yourAddress3
    objectives := b.objectives
    timeline := b.timeline
    primary_audience := b.primaryAudience
    secondary_audience := b.secondaryAudience
    call_action := b.callAction
    competition := b.competition
    graphics := b.graphics
    photography := b.photography
    multimedia := b.multimedia
    other_info := b.otherInfo
    client_name := b.clientName
    client_comments := b.clientComments
    approval_date := b.approvalDate
    approval_signature := b.approvalSignature }

/-- The camelCase re-projection of a stored row the description endpoints
answer with (src/server.js:465-494 and 541-570). -/
def descOfRow (r : ProjectRow) : DescBody :=
  { projectTitle := r.project_title
    notes := r.notes
    colleagueName := r.colleague_name
    colleaguePhone := r.colleague_phone
    colleagueEmail := r.colleague_email
    colleagueAddress1 := r.colleague_address1
    colleagueAddress2 := r.colleague_address2
    colleagueAddress3 := r.colleague_address3
    yourName := r.your_name
    yourPhone := r.your_phone
    yourEmail := r.your_email
    yourAddress1 := r.your_address1
    yourAddress2 := r.your_address2
    yourAddress3 := r.your_address3
    objectives := r.objectives
    timeline := r.timeline
    primaryAudience := r.primary_audience
    secondaryAudience := r.secondary_audience
    callAction := r.call_action
    competition := r.competition
    graphics := r.graphics
    photography := r.photography
    multimedia := r.multimedia
    otherInfo := r.other_info
    clientName := r.client_name
    clientComments := r.client_comments
    approvalDate := r.approval_date
    approvalSignature := r.approval_signature }

/-- The success payload of `PUT /projects/:id/description`:
`{updated: rowCount, data: ...}`. -/
structure DescUpdateOk where
  updated : Nat
  data : DescBody
deriving DecidableEq, Repr

/-- `PUT /projects/:id/description` (src/server.js:503-577).  The handler runs
the `UPDATE ... RETURNING *` and then unconditionally reads `result.rows[0]`;
when no row matched, `rows[0]` is `undefined`, the member access throws, and
the catch answers 500 `"Error updating description."` — the `UPDATE` itself
(a no-op in that case) has already been applied. -/
def putProjectDescription (pid : Nat) (b : DescBody) (tbl : List ProjectRow) :
    List ProjectRow × Except ApiError DescUpdateOk :=
  let tbl2 := tbl.map (fun r => if r.id == pid then applyDesc b r else r)
  let returned := tbl2.filter (fun r => r.id == pid)
  match returned with
  | [] => (tbl2, .error ⟨500, "Error updating description."⟩)
  | row :: _ => (tbl2, .ok ⟨returned.length, descOfRow row⟩)

/-- One row of `meetings` (src/server.js:100-107). -/
structure MeetingRow where
  id : Nat
  colleague_email : Option String
  date : Option String
  description : Option String
deriving DecidableEq, Repr

/-- `GET /meetings/:email` (src/server.js:437-448): keyed by colleague email,
no `ORDER BY`. -/
def getMeetings (tbl : List MeetingRow) (email : String) : List MeetingRow :=
  tbl.filter (fun r => r.colleague_email == some email)

/-! ## Recursion-depth measure of the JSON reader, and concrete fixtures -/

mutual
def fuelJ : Json → Nat
  | .null => 1
  | .bool _ => 1
  | .num _ => 1
  | .str _ => 1
  | .arr a => 1 + fuelA a
  | .obj o => 1 + fuelO o
def fuelA : Jarr → Nat
  | .nil => 1
  | .cons x xs => 1 + fuelJ x + fuelA xs
def fuelO : Jobj → Nat
  | .nil => 1
  | .cons _ v fs => 1 + fuelJ v + fuelO fs
end

/-! Concrete fixtures used by the closed evaluation theorems below. -/

def fxNow : String := "2025-06-01T00:00:00.000Z"

def fxOld : String := "2020-01-01T00:00:00.000Z"

def fxRegBody : AuthBody := { name := none, email := some "a@x.com", password := some "secret1" }

def fxUsers0 : UsersDb := { rows := [], nextId := 1 }

def fxUsers1 : UsersDb := (register "s1" fxRegBody fxUsers0).1

/-- A `POST /events` request that claims to be an all-day event and also
carries a `created_date` of its own. -/
def fxEventBody : EventBody :=
  { userEmail := some "u@x.com", title := some "standup", description := none,
    date := some "2025-03-01", start := some "09:00", endTime := some "09:30",
    location := none, category := none, attendees := none, reminder := none,
    isAllDay := some true, recurrence := none, recurrenceEnd := none,
    showAs := none, priority := none, isOnline := none, meetingLink := none,
    attachments := none, repeatWeekly := none, created_date := some fxOld }

def fxEventsDb0 : EventsDb := { rows := [], nextId := 1 }

def fxEventsDb1 : EventsDb := (postEvent fxEventBody fxNow fxEventsDb0).1

def fxStoredEvent : EventRow := (postEvent fxEventBody fxNow fxEventsDb0).2

/-- Two events of the same owner on the same date whose start times are out of
order in the stored table. -/
def fxTieEventA : EventRow :=
  { id := 1, user_email := some "u@x.com", title := some "late", description := none,
    event_date := some "2025-03-01", start_time := some "10:00", end_time := none,
    location := none, category := some "Work", attendees := none, reminder := some 15,
    is_all_day := some 0, recurrence := some "none", recurrence_end := none,
    show_as := some "busy", priority := some "normal", is_online := some 0,
    meeting_link := none, attachments := none, repeat_weekly := some 0,
    created_date := some fxOld, modified_date := none }

def fxTieEventB : EventRow :=
  { fxTieEventA with id := 2, title := some "early", start_time := some "09:00" }

def fxTieDb : EventsDb := { rows := [fxTieEventA, fxTieEventB], nextId := 3 }

/-- One degree object, as a client would send it inside `degrees`. -/
def fxDegree : Json :=
  .obj (.cons "degree" (.str "PhD") (.cons "year" (.num 2020) .nil))

def fxProfileBody : ProfileBody :=
  { userEmail := some "u@x.com", fullName := some "Ada", designation := none,
    department := none, institution := none, officeAddress := none,
    officialEmail := none, alternateEmail := none, phone := none, website := none,
    degrees := some (.cons fxDegree .nil), employment := none,
    researchKeywords := none, researchDescription := none, scholarLink := none,
    courses := some .nil, grants := none, professionalActivities := none,
    awards := none, skills := none, outreachService := none, created_date := none }

/-- The same profile write, now also carrying a `created_date` of its own. -/
def fxProfileBodyCd : ProfileBody := { fxProfileBody with created_date := some fxOld }

def fxProfiles0 : ProfilesDb := { rows := [], nextId := 1 }

/-- A career goal with one history row of its own and one row of another goal. -/
def fxGoal : CareerGoalRow :=
  { id := 2, user_email := some "u@x.com", title := some "Promotion",
    description := none, progress := some 0, goal_type := some "general",
    target_date := none, created_date := some fxOld, total_stages := some 5,
    current_stage := some 0, start_date := none, stage_description := none }

def fxHistOwn : StageHistoryRow :=
  { id := 1, goal_id := some 2, stage := some 1, description := some "done",
    updated_date := some fxNow }

def fxHistOther : StageHistoryRow :=
  { id := 7, goal_id := some 5, stage := some 3, description := none,
    updated_date := some fxOld }

def fxCareerDb : CareerDb :=
  { goals := [fxGoal], nextGoalId := 3, history := [fxHistOwn, fxHistOther],
    nextHistoryId := 8 }

def fxIdeaBodySome : IdeaBody :=
  { user_email := some "u@x.com", title := some "t", content := none,
    category := none, created_date := some fxOld }

def fxIdeaBodyNone : IdeaBody := { fxIdeaBodySome with created_date := none }

def fxIdeasDb0 : IdeasDb := { rows := [], nextId := 1 }


/-! ## Comparator laws and sortedness of `sortRows` -/

theorem ordLe_total {α : Type} (c : α → α → Ordering) (hc : LawfulCmp c) (a b : α) :
    ordLe c a b ∨ ordLe c b a := by
  by_cases h : c a b = Ordering.gt
  · right
    intro hg
    rw [hc.swap_eq a b, h] at hg
    exact Ordering.noConfusion hg
  · exact Or.inl h

theorem ordLe_trans {α : Type} (c : α → α → Ordering) (hc : LawfulCmp c) (a b d : α) :
    ordLe c a b → ordLe c b d → ordLe c a d := by
  intro hab hbd
  cases h1 : c a b with
  | gt => exact absurd h1 hab
  | lt =>
    cases h2 : c b d with
    | gt => exact absurd h2 hbd
    | lt => intro hg; rw [hc.lt_trans a b d h1 h2] at hg; exact Ordering.noConfusion hg
    | eq => intro hg; rw [hc.lt_of_lt_of_eq a b d h1 h2] at hg; exact Ordering.noConfusion hg
  | eq =>
    cases h2 : c b d with
    | gt => exact absurd h2 hbd
    | lt => intro hg; rw [hc.lt_of_eq_of_lt a b d h1 h2] at hg; exact Ordering.noConfusion hg
    | eq => intro hg; rw [hc.eq_trans a b d h1 h2] at hg; exact Ordering.noConfusion hg

theorem sorted_sortRows {α : Type} (c : α → α → Ordering) (hc : LawfulCmp c) (l : List α) :
    List.Sorted (ordLe c) (sortRows c l) := by
  haveI : IsTotal α (ordLe c) := ⟨fun a b => ordLe_total c hc a b⟩
  haveI : IsTrans α (ordLe c) := ⟨fun a b d => ordLe_trans c hc a b d⟩
  exact List.sorted_insertionSort _ l

theorem perm_sortRows {α : Type} (c : α → α → Ordering) (l : List α) :
    (sortRows c l).Perm l :=
  List.perm_insertionSort _ l

theorem sortRows_nil {α : Type} (c : α → α → Ordering) : sortRows c [] = [] := rfl

theorem cmpNat_lt_iff (a b : Nat) : cmpNat a b = .lt ↔ a < b := by
  simp only [cmpNat]
  split_ifs <;> simp_all

theorem cmpNat_eq_iff (a b : Nat) : cmpNat a b = .eq ↔ a = b := by
  simp only [cmpNat]
  split_ifs <;> simp_all <;> omega

theorem cmpNat_swap (a b : Nat) : cmpNat b a = (cmpNat a b).swap := by
  simp only [cmpNat]
  split_ifs <;> simp_all [Ordering.swap] <;> omega

theorem lawful_cmpNat : LawfulCmp cmpNat := by
  constructor
  · exact fun a b => cmpNat_swap a b
  · intro a b d h1 h2
    rw [cmpNat_eq_iff] at *
    omega
  · intro a b d h1 h2
    rw [cmpNat_lt_iff] at *
    omega
  · intro a b d h1 h2
    rw [cmpNat_lt_iff] at *
    rw [cmpNat_eq_iff] at h2
    omega
  · intro a b d h1 h2
    rw [cmpNat_lt_iff] at *
    rw [cmpNat_eq_iff] at h1
    omega

theorem cmpInt_lt_iff (a b : Int) : cmpInt a b = .lt ↔ a < b := by
  simp only [cmpInt]
  split_ifs <;> simp_all

theorem cmpInt_eq_iff (a b : Int) : cmpInt a b = .eq ↔ a = b := by
  simp only [cmpInt]
  split_ifs <;> simp_all <;> omega

theorem lawful_cmpInt : LawfulCmp cmpInt := by
  constructor
  · intro a b
    simp only [cmpInt]
    split_ifs <;> simp_all [Ordering.swap] <;> omega
  · intro a b d h1 h2
    rw [cmpInt_eq_iff] at *
    omega
  · intro a b d h1 h2
    rw [cmpInt_lt_iff] at *
    omega
  · intro a b d h1 h2
    rw [cmpInt_lt_iff] at *
    rw [cmpInt_eq_iff] at h2
    omega
  · intro a b d h1 h2
    rw [cmpInt_lt_iff] at *
    rw [cmpInt_eq_iff] at h1
    omega

theorem cmpChars_swap : ∀ a b : List Char, cmpChars b a = (cmpChars a b).swap := by
  intro a
  induction a with
  | nil => intro b; cases b <;> rfl
  | cons x xs ih =>
    intro b
    cases b with
    | nil => rfl
    | cons y ys =>
      simp only [cmpChars]
      have hsw := cmpNat_swap x.toNat y.toNat
      cases h : cmpNat x.toNat y.toNat with
      | lt =>
        rw [h] at hsw
        simp [hsw, Ordering.swap]
      | gt =>
        rw [h] at hsw
        simp [hsw, Ordering.swap]
      | eq =>
        rw [h] at hsw
        simp [hsw, Ordering.swap, ih ys]

theorem cmpChars_eq_of_eq : ∀ a b : List Char, cmpChars a b = .eq → a = b := by
  intro a
  induction a with
  | nil => intro b; cases b <;> simp [cmpChars]
  | cons x xs ih =>
    intro b
    cases b with
    | nil => simp [cmpChars]
    | cons y ys =>
      simp only [cmpChars]
      cases h : cmpNat x.toNat y.toNat with
      | lt => simp
      | gt => simp
      | eq =>
        intro h2
        have hx : x = y :=
          Char.eq_of_val_eq (UInt32.ext ((cmpNat_eq_iff x.toNat y.toNat).1 h))
        rw [hx, ih ys h2]

theorem cmpChars_lt_trans :
    ∀ a b d : List Char, cmpChars a b = .lt → cmpChars b d = .lt → cmpChars a d = .lt := by
  intro a
  induction a with
  | nil =>
    intro b d hab hbd
    cases d with
    | nil =>
      cases b with
      | nil => exact hab
      | cons y ys => simp [cmpChars] at hbd
    | cons z zs => simp [cmpChars]
  | cons x xs ih =>
    intro b d hab hbd
    cases b with
    | nil => simp [cmpChars] at hab
    | cons y ys =>
      cases d with
      | nil => simp [cmpChars] at hbd
      | cons z zs =>
        simp only [cmpChars] at hab hbd ⊢
        cases h1 : cmpNat x.toNat y.toNat with
        | gt => simp [h1] at hab
        | lt =>
          cases h2 : cmpNat y.toNat z.toNat with
          | gt => simp [h2] at hbd
          | lt =>
            have : cmpNat x.toNat z.toNat = .lt :=
              lawful_cmpNat.lt_trans _ _ _ h1 h2
            simp [this]
          | eq =>
            have : cmpNat x.toNat z.toNat = .lt :=
              lawful_cmpNat.lt_of_lt_of_eq _ _ _ h1 h2
            simp [this]
        | eq =>
          cases h2 : cmpNat y.toNat z.toNat with
          | gt => simp [h2] at hbd
          | lt =>
            have : cmpNat x.toNat z.toNat = .lt :=
              lawful_cmpNat.lt_of_eq_of_lt _ _ _ h1 h2
            simp [this]
          | eq =>
            have h3 : cmpNat x.toNat z.toNat = .eq :=
              lawful_cmpNat.eq_trans _ _ _ h1 h2
            simp only [h1] at hab
            simp only [h2] at hbd
            simp [h3, ih ys zs hab hbd]

theorem lawful_cmpChars : LawfulCmp cmpChars := by
  constructor
  · exact cmpChars_swap
  · intro a b d h1 h2
    rw [cmpChars_eq_of_eq a b h1] at *
    exact h2
  · exact cmpChars_lt_trans
  · intro a b d h1 h2
    rw [← cmpChars_eq_of_eq b d h2]
    exact h1
  · intro a b d h1 h2
    rw [cmpChars_eq_of_eq a b h1]
    exact h2

theorem ordSwap_eq_lt (o : Ordering) : o.swap = .lt ↔ o = .gt := by
  cases o <;> simp [Ordering.swap]

theorem ordSwap_eq_eq (o : Ordering) : o.swap = .eq ↔ o = .eq := by
  cases o <;> simp [Ordering.swap]

theorem lawfulCmp_gt_trans {α : Type} {c : α → α → Ordering} (hc : LawfulCmp c)
    (a b d : α) (h1 : c a b = .gt) (h2 : c b d = .gt) : c a d = .gt := by
  have hdb : c d b = .lt := by rw [hc.swap_eq b d, h2]; rfl
  have hba : c b a = .lt := by rw [hc.swap_eq a b, h1]; rfl
  have hda : c d a = .lt := hc.lt_trans d b a hdb hba
  rw [hc.swap_eq d a, hda]
  rfl

theorem lawfulCmp_gt_of_gt_of_eq {α : Type} {c : α → α → Ordering} (hc : LawfulCmp c)
    (a b d : α) (h1 : c a b = .gt) (h2 : c b d = .eq) : c a d = .gt := by
  have hdb : c d b = .eq := by rw [hc.swap_eq b d, h2]; rfl
  have hba : c b a = .lt := by rw [hc.swap_eq a b, h1]; rfl
  have hda : c d a = .lt := hc.lt_of_eq_of_lt d b a hdb hba
  rw [hc.swap_eq d a, hda]
  rfl

theorem lawfulCmp_gt_of_eq_of_gt {α : Type} {c : α → α → Ordering} (hc : LawfulCmp c)
    (a b d : α) (h1 : c a b = .eq) (h2 : c b d = .gt) : c a d = .gt := by
  have hdb : c d b = .lt := by rw [hc.swap_eq b d, h2]; rfl
  have hba : c b a = .eq := by rw [hc.swap_eq a b, h1]; rfl
  have hda : c d a = .lt := hc.lt_of_lt_of_eq d b a hdb hba
  rw [hc.swap_eq d a, hda]
  rfl

theorem lawful_cmpDesc {α : Type} (c : α → α → Ordering) (hc : LawfulCmp c) :
    LawfulCmp (cmpDesc c) := by
  constructor
  · intro a b
    simp only [cmpDesc]
    rw [hc.swap_eq a b]
  · intro a b d h1 h2
    simp only [cmpDesc, ordSwap_eq_eq] at h1 h2 ⊢
    exact hc.eq_trans a b d h1 h2
  · intro a b d h1 h2
    simp only [cmpDesc, ordSwap_eq_lt] at h1 h2 ⊢
    exact lawfulCmp_gt_trans hc a b d h1 h2
  · intro a b d h1 h2
    simp only [cmpDesc, ordSwap_eq_lt, ordSwap_eq_eq] at h1 h2 ⊢
    exact lawfulCmp_gt_of_gt_of_eq hc a b d h1 h2
  · intro a b d h1 h2
    simp only [cmpDesc, ordSwap_eq_lt, ordSwap_eq_eq] at h1 h2 ⊢
    exact lawfulCmp_gt_of_eq_of_gt hc a b d h1 h2

theorem cmpThen_lt_iff {α : Type} (c d : α → α → Ordering) (a b : α) :
    cmpThen c d a b = .lt ↔ (c a b = .lt ∨ (c a b = .eq ∧ d a b = .lt)) := by
  simp only [cmpThen]
  cases h : c a b <;> simp

theorem cmpThen_eq_iff {α : Type} (c d : α → α → Ordering) (a b : α) :
    cmpThen c d a b = .eq ↔ (c a b = .eq ∧ d a b = .eq) := by
  simp only [cmpThen]
  cases h : c a b <;> simp

theorem lawful_cmpThen {α : Type} (c d : α → α → Ordering)
    (hc : LawfulCmp c) (hd : LawfulCmp d) : LawfulCmp (cmpThen c d) := by
  constructor
  · intro a b
    simp only [cmpThen]
    rw [hc.swap_eq a b, hd.swap_eq a b]
    cases c a b <;> rfl
  · intro a b e h1 h2
    rw [cmpThen_eq_iff] at h1 h2 ⊢
    exact ⟨hc.eq_trans a b e h1.1 h2.1, hd.eq_trans a b e h1.2 h2.2⟩
  · intro a b e h1 h2
    rw [cmpThen_lt_iff] at h1 h2 ⊢
    rcases h1 with h1 | ⟨h1a, h1b⟩
    · rcases h2 with h2 | ⟨h2a, h2b⟩
      · exact Or.inl (hc.lt_trans a b e h1 h2)
      · exact Or.inl (hc.lt_of_lt_of_eq a b e h1 h2a)
    · rcases h2 with h2 | ⟨h2a, h2b⟩
      · exact Or.inl (hc.lt_of_eq_of_lt a b e h1a h2)
      · exact Or.inr ⟨hc.eq_trans a b e h1a h2a, hd.lt_trans a b e h1b h2b⟩
  · intro a b e h1 h2
    rw [cmpThen_lt_iff] at h1 ⊢
    rw [cmpThen_eq_iff] at h2
    rcases h1 with h1 | ⟨h1a, h1b⟩
    · exact Or.inl (hc.lt_of_lt_of_eq a b e h1 h2.1)
    · exact Or.inr ⟨hc.eq_trans a b e h1a h2.1, hd.lt_of_lt_of_eq a b e h1b h2.2⟩
  · intro a b e h1 h2
    rw [cmpThen_lt_iff] at h2 ⊢
    rw [cmpThen_eq_iff] at h1
    rcases h2 with h2 | ⟨h2a, h2b⟩
    · exact Or.inl (hc.lt_of_eq_of_lt a b e h1.1 h2)
    · exact Or.inr ⟨hc.eq_trans a b e h1.1 h2a, hd.lt_of_eq_of_lt a b e h1.2 h2b⟩

theorem lawful_cmpNullsLast {α : Type} (c : α → α → Ordering) (hc : LawfulCmp c) :
    LawfulCmp (cmpNullsLast c) := by
  constructor
  · intro a b
    cases a <;> cases b <;> simp [cmpNullsLast, Ordering.swap]
    exact hc.swap_eq _ _
  · intro a b d h1 h2
    cases a <;> cases b <;> cases d <;> simp_all [cmpNullsLast]
    exact hc.eq_trans _ _ _ h1 h2
  · intro a b d h1 h2
    cases a <;> cases b <;> cases d <;> simp_all [cmpNullsLast]
    exact hc.lt_trans _ _ _ h1 h2
  · intro a b d h1 h2
    cases a <;> cases b <;> cases d <;> simp_all [cmpNullsLast]
    exact hc.lt_of_lt_of_eq _ _ _ h1 h2
  · intro a b d h1 h2
    cases a <;> cases b <;> cases d <;> simp_all [cmpNullsLast]
    exact hc.lt_of_eq_of_lt _ _ _ h1 h2

theorem lawful_keyCmp {α β : Type} (f : α → β) (c : β → β → Ordering) (hc : LawfulCmp c) :
    LawfulCmp (keyCmp f c) :=
  ⟨fun a b => hc.swap_eq (f a) (f b),
   fun a b d => hc.eq_trans (f a) (f b) (f d),
   fun a b d => hc.lt_trans (f a) (f b) (f d),
   fun a b d => hc.lt_of_lt_of_eq (f a) (f b) (f d),
   fun a b d => hc.lt_of_eq_of_lt (f a) (f b) (f d)⟩

theorem lawful_cmpStr : LawfulCmp cmpStr :=
  ⟨fun a b => cmpChars_swap a.data b.data,
   fun a b d => lawful_cmpChars.eq_trans a.data b.data d.data,
   fun a b d => lawful_cmpChars.lt_trans a.data b.data d.data,
   fun a b d => lawful_cmpChars.lt_of_lt_of_eq a.data b.data d.data,
   fun a b d => lawful_cmpChars.lt_of_eq_of_lt a.data b.data d.data⟩

theorem lawful_ideasOrder : LawfulCmp ideasOrder :=
  lawful_keyCmp _ _ (lawful_cmpDesc _ (lawful_cmpNullsLast _ lawful_cmpStr))

theorem lawful_careerGoalsOrder : LawfulCmp careerGoalsOrder :=
  lawful_keyCmp _ _ (lawful_cmpDesc _ (lawful_cmpNullsLast _ lawful_cmpStr))

theorem lawful_notesOrder : LawfulCmp notesOrder :=
  lawful_keyCmp _ _ (lawful_cmpDesc _ (lawful_cmpNullsLast _ lawful_cmpStr))

theorem lawful_futureWorkOrder : LawfulCmp futureWorkOrder :=
  lawful_keyCmp _ _ (lawful_cmpDesc _ (lawful_cmpNullsLast _ lawful_cmpStr))

theorem lawful_deadlinesOrder : LawfulCmp deadlinesOrder :=
  lawful_keyCmp _ _ (lawful_cmpNullsLast _ lawful_cmpStr)

theorem lawful_eventsOrder : LawfulCmp eventsOrder :=
  lawful_cmpThen _ _ (lawful_keyCmp _ _ (lawful_cmpNullsLast _ lawful_cmpStr))
    (lawful_keyCmp _ _ (lawful_cmpNullsLast _ lawful_cmpStr))

theorem lawful_legacyEventsOrder : LawfulCmp legacyEventsOrder :=
  lawful_keyCmp _ _ (lawful_cmpNullsLast _ lawful_cmpStr)

theorem lawful_stageHistoryOrder : LawfulCmp stageHistoryOrder :=
  lawful_cmpThen _ _ (lawful_keyCmp _ _ (lawful_cmpNullsLast _ lawful_cmpInt))
    (lawful_keyCmp _ _ (lawful_cmpDesc _ (lawful_cmpNullsLast _ lawful_cmpStr)))

/-! ## Correctness of the JSON codec: digits and numbers -/

theorem stringMk_data (s : String) : String.mk s.data = s := rfl

theorem digit_props : ∀ d : Nat, d < 10 →
    (digitChar d).isDigit = true ∧ digitVal (digitChar d) = d ∧
    digitChar d ≠ 'n' ∧ digitChar d ≠ 't' ∧ digitChar d ≠ 'f' ∧
    digitChar d ≠ '"' ∧ digitChar d ≠ '[' ∧ digitChar d ≠ '{' ∧
    digitChar d ≠ '-' ∧ digitChar d ≠ ']' ∧ digitChar d ≠ '}' := by
  decide

theorem natCharsAux_eq : ∀ (fuel n : Nat) (acc : List Char), 0 < n → n ≤ fuel →
    natCharsAux fuel n acc = (Nat.digits 10 n).reverse.map digitChar ++ acc := by
  intro fuel
  induction fuel with
  | zero => intro n acc h1 h2; omega
  | succ f ih =>
    intro n acc h1 h2
    by_cases hlt : n < 10
    · have hd : Nat.digits 10 n = [n] := by
        rw [Nat.digits_def' (by norm_num) h1]
        have h10 : n % 10 = n := Nat.mod_eq_of_lt hlt
        have h0 : n / 10 = 0 := Nat.div_eq_of_lt hlt
        rw [h10, h0]
        simp
      simp [natCharsAux, hlt, hd]
    · have hq1 : 0 < n / 10 := Nat.div_pos (le_of_not_lt hlt) (by norm_num)
      have hq2 : n / 10 ≤ f := by
        have := Nat.div_lt_self h1 (by norm_num : 1 < 10)
        omega
      have hrec := ih (n / 10) (digitChar (n % 10) :: acc) hq1 hq2
      simp only [natCharsAux, if_neg hlt, hrec]
      rw [Nat.digits_def' (by norm_num) h1]
      simp [List.map_append]

theorem natChars_eq (n : Nat) (hn : 0 < n) :
    natChars n = (Nat.digits 10 n).reverse.map digitChar := by
  have := natCharsAux_eq (n + 1) n [] hn (by omega)
  simpa [natChars] using this

theorem natChars_zero : natChars 0 = ['0'] := rfl

theorem natChars_head : ∀ n : Nat, ∃ d t, natChars n = digitChar d :: t ∧ d < 10 := by
  intro n
  rcases Nat.eq_zero_or_pos n with h0 | hp
  · exact ⟨0, [], by rw [h0]; rfl, by norm_num⟩
  · rw [natChars_eq n hp]
    have hne : Nat.digits 10 n ≠ [] := Nat.digits_ne_nil_iff_ne_zero.2 (by omega)
    have hrev : (Nat.digits 10 n).reverse ≠ [] := by
      simpa using hne
    rcases List.exists_cons_of_ne_nil hrev with ⟨d, t, ht⟩
    refine ⟨d, t.map digitChar, by rw [ht]; rfl, ?_⟩
    have hmem : d ∈ Nat.digits 10 n := by
      have hm : d ∈ (Nat.digits 10 n).reverse := by rw [ht]; exact List.mem_cons_self d t
      simpa using hm
    exact Nat.digits_lt_base (by norm_num) hmem

theorem foldl_digits : ∀ (L : List Nat) (a : Nat),
    L.foldl (fun x d => x * 10 + d) a = a * 10 ^ L.length + Nat.ofDigits 10 L.reverse := by
  intro L
  induction L with
  | nil => intro a; simp [Nat.ofDigits]
  | cons d T ih =>
    intro a
    simp only [List.foldl_cons, ih (a * 10 + d), List.reverse_cons, Nat.ofDigits_append,
      List.length_reverse, List.length_cons, Nat.ofDigits_singleton, pow_succ]
    ring

theorem pNumAux_digits : ∀ (ds : List Nat) (acc : Nat) (rest : List Char),
    (∀ d ∈ ds, d < 10) → (∀ c, rest.head? = some c → c.isDigit = false) →
    pNumAux acc (ds.map digitChar ++ rest) = (ds.foldl (fun x d => x * 10 + d) acc, rest) := by
  intro ds
  induction ds with
  | nil =>
    intro acc rest _ hrest
    cases rest with
    | nil => rfl
    | cons c t =>
      have hc := hrest c rfl
      simp [pNumAux, hc]
  | cons d T ih =>
    intro acc rest hds hrest
    have hd : d < 10 := hds d (List.mem_cons_self d T)
    have hp := digit_props d hd
    simp only [List.map_cons, List.cons_append, pNumAux, hp.1, if_pos, hp.2.1]
    exact ih (acc * 10 + d) rest (fun x hx => hds x (List.mem_cons_of_mem d hx)) hrest

theorem pNum_natChars (n : Nat) (rest : List Char)
    (hrest : ∀ c, rest.head? = some c → c.isDigit = false) :
    pNum (natChars n ++ rest) = some (n, rest) := by
  rcases Nat.eq_zero_or_pos n with h0 | hp
  · subst h0
    rw [natChars_zero]
    have h := pNumAux_digits [] 0 rest (by simp) hrest
    simp only [List.map_nil, List.nil_append, List.foldl_nil] at h
    have hd0 : digitVal '0' = 0 := rfl
    have hdig0 : ('0' : Char).isDigit = true := by decide
    simp only [List.cons_append, List.nil_append]
    simp only [pNum, hdig0, if_true, hd0, h]
  · rw [natChars_eq n hp]
    have hne : Nat.digits 10 n ≠ [] := Nat.digits_ne_nil_iff_ne_zero.2 (by omega)
    have hrev : (Nat.digits 10 n).reverse ≠ [] := by simpa using hne
    rcases List.exists_cons_of_ne_nil hrev with ⟨d, t, ht⟩
    have hd_all : ∀ x ∈ (Nat.digits 10 n).reverse, x < 10 := by
      intro x hx
      exact Nat.digits_lt_base (by norm_num) (by simpa using hx)
    have hd : d < 10 := hd_all d (by rw [ht]; exact List.mem_cons_self d t)
    have ht_all : ∀ x ∈ t, x < 10 := by
      intro x hx
      exact hd_all x (by rw [ht]; exact List.mem_cons_of_mem d hx)
    have hp2 := digit_props d hd
    have hdv : digitVal (digitChar d) = d := hp2.2.1
    rw [ht]
    simp only [List.map_cons, List.cons_append, pNum, hp2.1, if_true, hdv]
    have haux := pNumAux_digits t d rest ht_all hrest
    rw [haux]
    have hfold : t.foldl (fun x k => x * 10 + k) d = n := by
      have h1 : t.foldl (fun x k => x * 10 + k) d
          = (d :: t).foldl (fun x k => x * 10 + k) 0 := by simp
      rw [h1, ← ht, foldl_digits]
      simp [Nat.ofDigits_digits]
    rw [hfold]

theorem pStrAux_escChars : ∀ (s rest : List Char),
    pStrAux (escChars s ++ '"' :: rest) = some (s, rest) := by
  intro s
  induction s with
  | nil =>
    intro rest
    have h1 : ¬ (('"' : Char) = '\\') := by decide
    simp only [escChars, List.nil_append]
    rw [pStrAux.eq_def]
    simp [h1]
  | cons c cs ih =>
    intro rest
    by_cases hc : c = '"' ∨ c = '\\'
    · have hesc : escChars (c :: cs) = '\\' :: c :: escChars cs := by
        simp only [escChars, if_pos hc]
      rw [hesc]
      simp [pStrAux, ih rest, List.append_eq]
    · push_neg at hc
      have hesc : escChars (c :: cs) = c :: escChars cs := by
        simp only [escChars, if_neg (not_or.mpr ⟨hc.1, hc.2⟩)]
      rw [hesc]
      rw [pStrAux.eq_def]
      simp [hc.1, hc.2, ih rest, List.append_eq]

/-! ## Correctness of the JSON codec: full round-trip -/

theorem pVal_succ (g : Nat) (c : Char) (cs : List Char) :
    pVal (g + 1) (c :: cs) = pValHead (pElems g) (pFields g) c cs := rfl

theorem pElems_succ (g : Nat) (cs : List Char) :
    pElems (g + 1) cs = (pVal g cs).bind (elemsCont (pElems g)) := rfl

theorem pFields_succ (g : Nat) (cs : List Char) :
    pFields (g + 1) cs = pFieldsBody (pVal g) (pFields g) cs := rfl

theorem fuelJ_pos : ∀ j : Json, 1 ≤ fuelJ j := by
  intro j
  cases j with
  | null => exact le_refl 1
  | bool b => exact le_refl 1
  | num n => exact le_refl 1
  | str s => exact le_refl 1
  | arr a => show 1 ≤ 1 + fuelA a; omega
  | obj o => show 1 ≤ 1 + fuelO o; omega

theorem strJ_cons : ∀ j : Json, ∃ c t, strJ j = c :: t ∧ c ≠ ']' ∧ c ≠ '}' := by
  intro j
  cases j with
  | null => exact ⟨'n', _, rfl, by decide, by decide⟩
  | bool b =>
    cases b with
    | true => exact ⟨'t', _, rfl, by decide, by decide⟩
    | false => exact ⟨'f', _, rfl, by decide, by decide⟩
  | num n =>
    rcases lt_or_le n 0 with hneg | hpos
    · refine ⟨'-', natChars n.natAbs, ?_, by decide, by decide⟩
      show intChars n = _
      rw [intChars, if_pos hneg]
    · obtain ⟨d, t, ht, hd⟩ := natChars_head n.toNat
      obtain ⟨_, _, _, _, _, _, _, _, _, hn8, hn9⟩ := digit_props d hd
      refine ⟨digitChar d, t, ?_, hn8, hn9⟩
      show intChars n = _
      rw [intChars, if_neg (not_lt.mpr hpos)]
      exact ht
  | str s => exact ⟨'"', _, rfl, by decide, by decide⟩
  | arr a =>
    cases a with
    | nil => exact ⟨'[', _, rfl, by decide, by decide⟩
    | cons x xs => exact ⟨'[', _, rfl, by decide, by decide⟩
  | obj o =>
    cases o with
    | nil => exact ⟨'{', _, rfl, by decide, by decide⟩
    | cons k v fs => exact ⟨'{', _, rfl, by decide, by decide⟩

theorem parse_strJ : ∀ fuel : Nat,
    (∀ (j : Json) (rest : List Char), fuelJ j ≤ fuel →
      (∀ c, rest.head? = some c → c.isDigit = false) →
      pVal fuel (strJ j ++ rest) = some (j, rest)) ∧
    (∀ (x : Json) (xs : Jarr) (rest : List Char), 1 + fuelJ x + fuelA xs ≤ fuel →
      (∀ c, rest.head? = some c → c.isDigit = false) →
      pElems fuel (strJ x ++ (strTail xs ++ ']' :: rest)) = some (.cons x xs, rest)) ∧
    (∀ (k : String) (v : Json) (fs : Jobj) (rest : List Char), 1 + fuelJ v + fuelO fs ≤ fuel →
      (∀ c, rest.head? = some c → c.isDigit = false) →
      pFields fuel (keyChars k ++ (strJ v ++ (strFTail fs ++ '}' :: rest)))
        = some (.cons k v fs, rest)) := by
  intro fuel
  induction fuel with
  | zero =>
    refine ⟨?_, ?_, ?_⟩
    · intro j rest hf _
      have := fuelJ_pos j
      omega
    · intro x xs rest hf _
      omega
    · intro k v fs rest hf _
      omega
  | succ g ih =>
    obtain ⟨ihV, ihE, ihF⟩ := ih
    refine ⟨?_, ?_, ?_⟩
    · intro j rest hf hrest
      cases j with
      | null => exact rfl
      | bool b => cases b <;> exact rfl
      | num n =>
        rcases lt_or_le n 0 with hneg | hpos
        · have harr : strJ (.num n) ++ rest = '-' :: (natChars n.natAbs ++ rest) := by
            show intChars n ++ rest = _
            rw [intChars, if_pos hneg]
            simp
          rw [harr, pVal_succ]
          have hpn := pNum_natChars n.natAbs rest hrest
          simp [pValHead, hpn, negRes]
          rw [abs_of_neg hneg, neg_neg]
        · obtain ⟨d, t, ht, hd⟩ := natChars_head n.toNat
          obtain ⟨hdig, hdv, hn1, hn2, hn3, hn4, hn5, hn6, hn7, hn8, hn9⟩ := digit_props d hd
          have harr : strJ (.num n) ++ rest = digitChar d :: (t ++ rest) := by
            show intChars n ++ rest = _
            rw [intChars, if_neg (not_lt.mpr hpos), ht]
            simp
          rw [harr, pVal_succ]
          have hpn : pNum (digitChar d :: (t ++ rest)) = some (n.toNat, rest) := by
            have hh := pNum_natChars n.toNat rest hrest
            rw [ht] at hh
            simpa using hh
          simp [pValHead, hn1, hn2, hn3, hn4, hn5, hn6, hn7, hdig, hpn, posRes]
          omega
      | str s =>
        have harr : strJ (.str s) ++ rest = '"' :: (escChars s.data ++ '"' :: rest) := by
          show ('"' :: (escChars s.data ++ ['"'])) ++ rest = _
          simp
        rw [harr, pVal_succ]
        simp [pValHead, pStrAux_escChars s.data rest, strRes, stringMk_data]
      | arr a =>
        cases a with
        | nil => exact rfl
        | cons x xs =>
          obtain ⟨cx, tx, hx, hx1, hx2⟩ := strJ_cons x
          have harr : strJ (.arr (.cons x xs)) ++ rest
              = '[' :: (cx :: (tx ++ (strTail xs ++ ']' :: rest))) := by
            show ('[' :: (strJ x ++ strTail xs ++ [']'])) ++ rest = _
            rw [hx]
            simp
          rw [harr, pVal_succ]
          have hform : fuelJ (Json.arr (Jarr.cons x xs)) = 1 + (1 + fuelJ x + fuelA xs) := rfl
          have he := ihE x xs rest (by omega) hrest
          rw [hx] at he
          simp only [List.cons_append] at he
          simp [pValHead, hx1, he, arrRes]
      | obj o =>
        cases o with
        | nil => exact rfl
        | cons k v fs =>
          have harr : strJ (.obj (.cons k v fs)) ++ rest
              = '{' :: ('"' :: (escChars k.data ++ '"' :: ':'
                  :: (strJ v ++ (strFTail fs ++ '}' :: rest)))) := by
            show ('{' :: (keyChars k ++ strJ v ++ strFTail fs ++ ['}'])) ++ rest = _
            simp [keyChars]
          rw [harr, pVal_succ]
          have hform : fuelJ (Json.obj (Jobj.cons k v fs)) = 1 + (1 + fuelJ v + fuelO fs) := rfl
          have hfld := ihF k v fs rest (by omega) hrest
          have hkey : keyChars k ++ (strJ v ++ (strFTail fs ++ '}' :: rest))
              = '"' :: (escChars k.data ++ '"' :: ':'
                  :: (strJ v ++ (strFTail fs ++ '}' :: rest))) := by
            simp [keyChars]
          rw [hkey] at hfld
          simp [pValHead, hfld, objRes]
    · intro x xs rest hfa hrest
      rw [pElems_succ]
      have hrest2 : ∀ c, (strTail xs ++ ']' :: rest).head? = some c → c.isDigit = false := by
        cases xs with
        | nil =>
          intro c hc
          simp [strTail] at hc
          subst hc
          decide
        | cons y ys =>
          intro c hc
          simp [strTail] at hc
          subst hc
          decide
      have hv := ihV x (strTail xs ++ ']' :: rest) (by omega) hrest2
      rw [hv]
      cases xs with
      | nil => simp [strTail, elemsCont]
      | cons y ys =>
        have hform : fuelA (Jarr.cons y ys) = 1 + fuelJ y + fuelA ys := rfl
        have he2 := ihE y ys rest (by omega) hrest
        simp [strTail, elemsCont, consRes, he2, List.append_assoc]
    · intro k v fs rest hfo hrest
      rw [pFields_succ]
      have harr : keyChars k ++ (strJ v ++ (strFTail fs ++ '}' :: rest))
          = '"' :: (escChars k.data ++ '"' :: (':' :: (strJ v ++ (strFTail fs ++ '}' :: rest)))) := by
        simp [keyChars]
      rw [harr]
      have hps := pStrAux_escChars k.data (':' :: (strJ v ++ (strFTail fs ++ '}' :: rest)))
      have hrest2 : ∀ c, (strFTail fs ++ '}' :: rest).head? = some c → c.isDigit = false := by
        cases fs with
        | nil =>
          intro c hc
          simp [strFTail] at hc
          subst hc
          decide
        | cons k2 v2 fs2 =>
          intro c hc
          simp [strFTail] at hc
          subst hc
          decide
      have hv := ihV v (strFTail fs ++ '}' :: rest) (by omega) hrest2
      cases fs with
      | nil =>
        simp only [strFTail, List.nil_append] at hps hv ⊢
        simp [pFieldsBody, hps, fieldsKeyCont, hv, fieldsValCont, stringMk_data]
      | cons k2 v2 fs2 =>
        have hform : fuelO (Jobj.cons k2 v2 fs2) = 1 + fuelJ v2 + fuelO fs2 := rfl
        have hf2 := ihF k2 v2 fs2 rest (by omega) hrest
        simp only [strFTail, keyChars, List.cons_append, List.append_assoc,
          List.nil_append] at hps hv hf2 ⊢
        simp [pFieldsBody, hps, fieldsKeyCont, hv, fieldsValCont,
          fconsRes, stringMk_data, hf2, List.append_assoc]

theorem strJ_length_pos : ∀ j : Json, 1 ≤ (strJ j).length := by
  intro j
  obtain ⟨c, t, hct, _, _⟩ := strJ_cons j
  rw [hct]
  simp

mutual
theorem fuelJ_le : (j : Json) → fuelJ j ≤ 3 * (strJ j).length
  | .null => by show 1 ≤ 3 * (4 : Nat); omega
  | .bool b => by
    cases b with
    | true => show 1 ≤ 3 * (4 : Nat); omega
    | false => show 1 ≤ 3 * (5 : Nat); omega
  | .num n => by
    have h := strJ_length_pos (.num n)
    show 1 ≤ 3 * (strJ (.num n)).length
    omega
  | .str s => by
    show 1 ≤ 3 * ('"' :: (escChars s.data ++ ['"'])).length
    simp only [List.length_cons, List.length_append]
    omega
  | .arr .nil => by show 2 ≤ 3 * (2 : Nat); omega
  | .arr (.cons x xs) => by
    have h1 := fuelJ_le x
    have h2 := fuelA_le xs
    show 1 + (1 + fuelJ x + fuelA xs) ≤ 3 * ('[' :: (strJ x ++ strTail xs ++ [']'])).length
    simp only [List.length_cons, List.length_append]
    omega
  | .obj .nil => by show 2 ≤ 3 * (2 : Nat); omega
  | .obj (.cons k v fs) => by
    have h1 := fuelJ_le v
    have h2 := fuelO_le fs
    show 1 + (1 + fuelJ v + fuelO fs)
        ≤ 3 * ('{' :: (keyChars k ++ strJ v ++ strFTail fs ++ ['}'])).length
    simp only [List.length_cons, List.length_append]
    omega
theorem fuelA_le : (a : Jarr) → fuelA a ≤ 3 * (strTail a).length + 1
  | .nil => by show 1 ≤ 3 * (0 : Nat) + 1; omega
  | .cons y ys => by
    have h1 := fuelJ_le y
    have h2 := fuelA_le ys
    show 1 + fuelJ y + fuelA ys ≤ 3 * (',' :: (strJ y ++ strTail ys)).length + 1
    simp only [List.length_cons, List.length_append]
    omega
theorem fuelO_le : (o : Jobj) → fuelO o ≤ 3 * (strFTail o).length + 1
  | .nil => by show 1 ≤ 3 * (0 : Nat) + 1; omega
  | .cons k v fs => by
    have h1 := fuelJ_le v
    have h2 := fuelO_le fs
    show 1 + fuelJ v + fuelO fs ≤ 3 * (',' :: (keyChars k ++ strJ v ++ strFTail fs)).length + 1
    simp only [List.length_cons, List.length_append]
    omega
end

/-- The round-trip law of the modelled `JSON` built-ins: reading back a
serialised value yields the value. -/
theorem jsonParse_stringify (j : Json) : jsonParse (jsonStringify j) = some j := by
  have hlen : (jsonStringify j).length = (strJ j).length := rfl
  have hdata : (jsonStringify j).data = strJ j := rfl
  have hfu : fuelJ j ≤ 3 * (strJ j).length + 3 := by
    have := fuelJ_le j
    omega
  have h := (parse_strJ (3 * (strJ j).length + 3)).1 j [] hfu (by intro c hc; cases hc)
  rw [List.append_nil] at h
  rw [jsonParse, hlen, hdata, h]

/-! ## Claim theorems -/

/-- C2: deleting a career goal removes every stage-history row referencing that
goal and the goal row itself, keeps every other history row, answers the count
of deleted goal rows, and a subsequent history read for that goal is empty. -/
theorem careerGoal_delete_no_orphans (db : CareerDb) (gid : Nat) :
    (deleteCareerGoal gid db).1.history.filter (fun h => h.goal_id == some gid) = [] ∧
    (deleteCareerGoal gid db).1.goals.filter (fun g => g.id == gid) = [] ∧
    (∀ h ∈ db.history, h.goal_id ≠ some gid → h ∈ (deleteCareerGoal gid db).1.history) ∧
    (∀ h ∈ (deleteCareerGoal gid db).1.history, h ∈ db.history) ∧
    (deleteCareerGoal gid db).2 = (db.goals.filter (fun g => g.id == gid)).length ∧
    getStageHistory (deleteCareerGoal gid db).1 gid = [] := by
  have hhist : (deleteCareerGoal gid db).1.history.filter (fun h => h.goal_id == some gid) = [] := by
    rw [List.filter_eq_nil_iff]
    intro h hm
    have hm2 : h ∈ db.history.filter (fun h => !(h.goal_id == some gid)) := hm
    rw [List.mem_filter] at hm2
    simp only [Bool.not_eq_true'] at hm2
    simp [hm2.2]
  refine ⟨hhist, ?_, ?_, ?_, rfl, ?_⟩
  · rw [List.filter_eq_nil_iff]
    intro g hm
    have hm2 : g ∈ (db.goals.filter (fun g => !(g.id == gid))) := hm
    rw [List.mem_filter] at hm2
    simp only [Bool.not_eq_true'] at hm2
    simp [hm2.2]
  · intro h hm hne
    show h ∈ db.history.filter (fun h => !(h.goal_id == some gid))
    rw [List.mem_filter]
    exact ⟨hm, by simpa using hne⟩
  · intro h hm
    have hm2 : h ∈ db.history.filter (fun h => !(h.goal_id == some gid)) := hm
    exact (List.mem_filter.mp hm2).1
  · show sortRows stageHistoryOrder
      ((deleteCareerGoal gid db).1.history.filter (fun h => h.goal_id == some gid)) = []
    rw [hhist]
    rfl

/-- C2 witness: on the concrete store, deleting goal 2 leaves no history row of
goal 2, keeps the other goal's row, and the history read is empty. -/
theorem careerGoal_delete_no_orphans_witness :
    (deleteCareerGoal 2 fxCareerDb).1.history.filter (fun h => h.goal_id == some 2) = [] ∧
    fxHistOther ∈ (deleteCareerGoal 2 fxCareerDb).1.history ∧
    getStageHistory (deleteCareerGoal 2 fxCareerDb).1 2 = [] := by
  have h := careerGoal_delete_no_orphans fxCareerDb 2
  exact ⟨h.1, h.2.2.1 fxHistOther (by decide) (by decide), h.2.2.2.2.2⟩

/-- C10: the stage-history delete removes exactly the rows matching both the
history id and the goal id; when every row with the history id belongs to a
different goal, nothing changes and the count is 0; the goals table is never
touched. -/
theorem history_delete_scoped (db : CareerDb) (gid hid : Nat) :
    (∀ h : StageHistoryRow, h ∈ (deleteStageHistoryEntry gid hid db).1.history ↔
      (h ∈ db.history ∧ ¬ (h.id = hid ∧ h.goal_id = some gid))) ∧
    (deleteStageHistoryEntry gid hid db).1.goals = db.goals ∧
    ((∀ h ∈ db.history, h.id = hid → h.goal_id ≠ some gid) →
      (deleteStageHistoryEntry gid hid db).1 = db ∧
      (deleteStageHistoryEntry gid hid db).2 = 0) := by
  refine ⟨?_, rfl, ?_⟩
  · intro h
    have hstep : h ∈ (deleteStageHistoryEntry gid hid db).1.history ↔
        h ∈ db.history.filter (fun h => !(h.id == hid && h.goal_id == some gid)) := Iff.rfl
    rw [hstep, List.mem_filter]
    simp only [Bool.not_eq_true']
    constructor
    · intro hx
      refine ⟨hx.1, ?_⟩
      intro hboth
      have := hx.2
      simp [hboth.1, hboth.2] at this
    · intro hx
      refine ⟨hx.1, ?_⟩
      by_cases hid2 : h.id = hid
      · have : ¬ h.goal_id = some gid := fun hg => hx.2 ⟨hid2, hg⟩
        simp [hid2, this]
      · simp [hid2]
  · intro hall
    have hfil : db.history.filter (fun h => !(h.id == hid && h.goal_id == some gid))
        = db.history := by
      rw [List.filter_eq_self]
      intro h hm
      have hh := hall h hm
      by_cases hid2 : h.id = hid
      · simp [hid2, hh hid2]
      · simp [hid2]
    have hcnt : db.history.filter (fun h => h.id == hid && h.goal_id == some gid) = [] := by
      rw [List.filter_eq_nil_iff]
      intro h hm
      have hh := hall h hm
      by_cases hid2 : h.id = hid
      · simp [hid2, hh hid2]
      · simp [hid2]
    constructor
    · have hstep : (deleteStageHistoryEntry gid hid db).1 = { db with history := db.history.filter (fun h => !(h.id == hid && h.goal_id == some gid)) } := rfl
      rw [hstep, hfil]
    · have hstep : (deleteStageHistoryEntry gid hid db).2 =
          (db.history.filter (fun h => h.id == hid && h.goal_id == some gid)).length := rfl
      rw [hstep, hcnt]
      rfl

/-- C10 witness: deleting history entry 1 under goal 1 — the entry exists but
belongs to goal 2 — changes nothing and answers 0. -/
theorem history_delete_scoped_witness :
    (deleteStageHistoryEntry 1 1 fxCareerDb).1 = fxCareerDb ∧
    (deleteStageHistoryEntry 1 1 fxCareerDb).2 = 0 :=
  (history_delete_scoped fxCareerDb 1 1).2.2 (by decide)

/-- C9: update and delete on a missing id generally answer a zero row count
without an error (shown for the idea endpoints on a store with no row of id 1),
but the project-description update on a missing id crashes into its catch:
`result.rows[0]` is `undefined` there, so the caller receives a 500 error
instead of `{updated: 0}` — the code contradicts the documented contract. -/
theorem missing_id_update_delete_eval :
    putIdea 1 ⟨none, none, none⟩ fxIdeasDb0 = (fxIdeasDb0, 0) ∧
    deleteIdea 1 fxIdeasDb0 = (fxIdeasDb0, 0) ∧
    putProjectDescription 1 descBodyNone []
      = ([], .error ⟨500, "Error updating description."⟩) := by
  refine ⟨?_, ?_, ?_⟩ <;> rfl

/-- C1: the register handler answers 400 and writes nothing when email or
password is missing (or empty, which JavaScript also treats as missing) or the
password is shorter than 6 characters; answers the 400 conflict when a stored
user already holds the lowercased-and-trimmed email; otherwise appends exactly
one row holding the salted hash under the normalised email and returns the new
id and email.  Registering a second email with the same normalisation (in
particular one differing only in case) right after a successful registration
always yields the conflict. -/
theorem register_contract (salt : String) (b : AuthBody) (db : UsersDb) :
    (¬ (jsTruthy b.email = true ∧ jsTruthy b.password = true) →
      register salt b db = (db, .error ⟨400, "Email and password are required."⟩)) ∧
    (∀ e p, b.email = some e → b.password = some p → e ≠ "" → p ≠ "" →
      (p.length < 6 →
        register salt b db
          = (db, .error ⟨400, "Password must be at least 6 characters long."⟩)) ∧
      (6 ≤ p.length →
        ((∃ u ∈ db.rows, u.email = normalizeEmail e) →
          register salt b db = (db, .error ⟨400, "User already exists."⟩)) ∧
        ((∀ u ∈ db.rows, u.email ≠ normalizeEmail e) →
          register salt b db
            = ({ rows := db.rows ++ [⟨db.nextId, normalizeEmail e, bcryptHashWith salt p⟩],
                 nextId := db.nextId + 1 },
               .ok ⟨db.nextId, normalizeEmail e⟩)))) ∧
    (∀ e p (b2 : AuthBody) (e2 p2 : String) (salt2 : String),
      b.email = some e → b.password = some p → e ≠ "" → p ≠ "" → 6 ≤ p.length →
      (∀ u ∈ db.rows, u.email ≠ normalizeEmail e) →
      b2.email = some e2 → b2.password = some p2 → e2 ≠ "" → p2 ≠ "" → 6 ≤ p2.length →
      normalizeEmail e2 = normalizeEmail e →
      register salt2 b2 (register salt b db).1
        = ((register salt b db).1, .error ⟨400, "User already exists."⟩)) := by
  have hconf : ∀ (salt' : String) (b' : AuthBody) (e' p' : String) (db' : UsersDb),
      b'.email = some e' → b'.password = some p' → e' ≠ "" → p' ≠ "" → 6 ≤ p'.length →
      (∃ u ∈ db'.rows, u.email = normalizeEmail e') →
      register salt' b' db' = (db', .error ⟨400, "User already exists."⟩) := by
    intro salt' b' e' p' db' hbe hbp he hp hlen ⟨u, hu, hueq⟩
    have hany : db'.rows.any (fun u => u.email == normalizeEmail e') = true := by
      rw [List.any_eq_true]
      exact ⟨u, hu, by simpa using hueq⟩
    simp [register, hbe, hbp, he, hp, Nat.not_lt.mpr hlen, hany]
  have hok : ∀ (salt' : String) (b' : AuthBody) (e' p' : String) (db' : UsersDb),
      b'.email = some e' → b'.password = some p' → e' ≠ "" → p' ≠ "" → 6 ≤ p'.length →
      (∀ u ∈ db'.rows, u.email ≠ normalizeEmail e') →
      register salt' b' db'
        = ({ rows := db'.rows ++ [⟨db'.nextId, normalizeEmail e', bcryptHashWith salt' p'⟩],
             nextId := db'.nextId + 1 },
           .ok ⟨db'.nextId, normalizeEmail e'⟩) := by
    intro salt' b' e' p' db' hbe hbp he hp hlen hfresh
    have hany : db'.rows.any (fun u => u.email == normalizeEmail e') = false := by
      rw [Bool.eq_false_iff]
      intro hc
      rw [List.any_eq_true] at hc
      obtain ⟨u, hu, hueq⟩ := hc
      exact hfresh u hu (by simpa using hueq)
    simp [register, hbe, hbp, he, hp, Nat.not_lt.mpr hlen, hany]
  refine ⟨?_, ?_, ?_⟩
  · intro hmiss
    rcases hbe : b.email with _ | e
    · simp [register, hbe]
    · rcases hbp : b.password with _ | p
      · simp [register, hbe, hbp]
      · rw [hbe, hbp] at hmiss
        simp [jsTruthy] at hmiss
        by_cases he : e = ""
        · simp [register, hbe, hbp, he]
        · have hpe : p = "" := hmiss he
          simp [register, hbe, hbp, hpe]
  · intro e p hbe hbp he hp
    constructor
    · intro hlen
      simp [register, hbe, hbp, he, hp, hlen]
    · intro hlen
      exact ⟨fun hex => hconf salt b e p db hbe hbp he hp hlen hex,
             fun hfr => hok salt b e p db hbe hbp he hp hlen hfr⟩
  · intro e p b2 e2 p2 salt2 hbe hbp he hp hlen hfresh hbe2 hbp2 he2 hp2 hlen2 hnorm
    have hreg1 := hok salt b e p db hbe hbp he hp hlen hfresh
    have hdb1 : (register salt b db).1
        = { rows := db.rows ++ [⟨db.nextId, normalizeEmail e, bcryptHashWith salt p⟩],
            nextId := db.nextId + 1 } := by rw [hreg1]
    have hex : ∃ u ∈ (register salt b db).1.rows, u.email = normalizeEmail e2 := by
      refine ⟨⟨db.nextId, normalizeEmail e, bcryptHashWith salt p⟩, ?_, by simp [hnorm]⟩
      rw [hdb1]
      simp
    exact hconf salt2 b2 e2 p2 (register salt b db).1 hbe2 hbp2 he2 hp2 hlen2 hex

/-- C1 witness: registering `a@x.com` on an empty store succeeds and stores the
hash; re-registering as `A@X.com ` (case and whitespace differing) conflicts; a
5-character password fails validation and a 6-character one passes it. -/
theorem register_contract_witness :
    register "s1" fxRegBody fxUsers0
      = (⟨[⟨1, "a@x.com", bcryptHashWith "s1" "secret1"⟩], 2⟩, .ok ⟨1, "a@x.com"⟩) ∧
    register "s2" ⟨none, some "A@X.com ", some "secret2"⟩ fxUsers1
      = (fxUsers1, .error ⟨400, "User already exists."⟩) ∧
    register "s3" ⟨none, some "b@x.com", some "five5"⟩ fxUsers1
      = (fxUsers1, .error ⟨400, "Password must be at least 6 characters long."⟩) ∧
    register "s4" ⟨none, some "b@x.com", some "sixsix"⟩ fxUsers1
      = (⟨fxUsers1.rows ++ [⟨2, "b@x.com", bcryptHashWith "s4" "sixsix"⟩], 3⟩,
         .ok ⟨2, "b@x.com"⟩) := by
  have h1 := ((register_contract "s1" fxRegBody fxUsers0).2.1 "a@x.com" "secret1"
    rfl rfl (by decide) (by decide)).2 (by decide) |>.2 (by decide)
  have h2 := ((register_contract "s2" ⟨none, some "A@X.com ", some "secret2"⟩ fxUsers1).2.1
    "A@X.com " "secret2" rfl rfl (by decide) (by decide)).2 (by decide) |>.1 (by decide)
  have h3 := ((register_contract "s3" ⟨none, some "b@x.com", some "five5"⟩ fxUsers1).2.1
    "b@x.com" "five5" rfl rfl (by decide) (by decide)).1 (by decide)
  have h4 := ((register_contract "s4" ⟨none, some "b@x.com", some "sixsix"⟩ fxUsers1).2.1
    "b@x.com" "sixsix" rfl rfl (by decide) (by decide)).2 (by decide) |>.2 (by decide)
  refine ⟨?_, ?_, ?_, ?_⟩
  · rw [h1]
    rfl
  · exact h2
  · exact h3
  · rw [h4]
    rfl

/-- C5: with both fields present (and the emails table unique, as registration
enforces), login succeeds returning the stored email exactly when a stored row
holds the lowercased-and-trimmed email and the supplied password verifies
against its hash; the unknown-email failure and the wrong-password failure are
the same 400 response with the same generic message. -/
theorem login_contract (b : AuthBody) (db : UsersDb)
    (hnodup : (db.rows.map (fun u => u.email)).Nodup) :
    ∀ e p, b.email = some e → b.password = some p → e ≠ "" → p ≠ "" →
      (∀ r : LoginOk, login b db = .ok r ↔
        (∃ u ∈ db.rows, u.email = normalizeEmail e ∧
          bcryptCompare p u.password = true ∧ r = ⟨u.email⟩)) ∧
      ((∀ u ∈ db.rows, u.email ≠ normalizeEmail e) →
        login b db = .error ⟨400, "Invalid credentials."⟩) ∧
      (∀ u ∈ db.rows, u.email = normalizeEmail e → bcryptCompare p u.password = false →
        login b db = .error ⟨400, "Invalid credentials."⟩) := by
  intro e p hbe hbp he hp
  have hinj := List.inj_on_of_nodup_map hnodup
  cases hfind : db.rows.find? (fun u => u.email == normalizeEmail e) with
  | none =>
    have hnone : ∀ u ∈ db.rows, u.email ≠ normalizeEmail e := by
      intro u hu hueq
      have := List.find?_eq_none.mp hfind u hu
      simp [hueq] at this
    refine ⟨?_, ?_, ?_⟩
    · intro r
      constructor
      · intro hl
        simp [login, hbe, hbp, he, hp, hfind] at hl
      · intro ⟨u, hu, hueq, _, _⟩
        exact absurd hueq (hnone u hu)
    · intro _
      simp [login, hbe, hbp, he, hp, hfind]
    · intro u hu hueq _
      exact absurd hueq (hnone u hu)
  | some u0 =>
    have hu0mem : u0 ∈ db.rows := List.mem_of_find?_eq_some hfind
    have hu0eq : u0.email = normalizeEmail e := by
      have := List.find?_some hfind
      simpa using this
    refine ⟨?_, ?_, ?_⟩
    · intro r
      constructor
      · intro hl
        rcases hcmp : bcryptCompare p u0.password with _ | _
        · simp [login, hbe, hbp, he, hp, hfind, hcmp] at hl
        · refine ⟨u0, hu0mem, hu0eq, hcmp, ?_⟩
          simp [login, hbe, hbp, he, hp, hfind, hcmp] at hl
          rw [← hl]
      · intro ⟨u, hu, hueq, hcmp, hr⟩
        have hsame : u = u0 := hinj hu hu0mem (by rw [hueq, hu0eq])
        subst hsame
        simp [login, hbe, hbp, he, hp, hfind, hcmp, hr]
    · intro hnone
      exact absurd hu0eq (hnone u0 hu0mem)
    · intro u hu hueq hcmp
      have hsame : u = u0 := hinj hu hu0mem (by rw [hueq, hu0eq])
      subst hsame
      simp [login, hbe, hbp, he, hp, hfind, hcmp]

/-- C5 witness: after registering `a@x.com`, logging in as `A@X.com` with the
right password succeeds with the stored email, and a wrong password gets the
same generic 400 as an unknown email. -/
theorem login_contract_witness :
    login ⟨none, some "A@X.com", some "secret1"⟩ fxUsers1 = .ok ⟨"a@x.com"⟩ ∧
    login ⟨none, some "a@x.com", some "wrong"⟩ fxUsers1
      = .error ⟨400, "Invalid credentials."⟩ ∧
    login ⟨none, some "other@x.com", some "secret1"⟩ fxUsers1
      = .error ⟨400, "Invalid credentials."⟩ := by
  have h1 := login_contract ⟨none, some "A@X.com", some "secret1"⟩ fxUsers1 (by decide)
    "A@X.com" "secret1" rfl rfl (by decide) (by decide)
  have h2 := login_contract ⟨none, some "a@x.com", some "wrong"⟩ fxUsers1 (by decide)
    "a@x.com" "wrong" rfl rfl (by decide) (by decide)
  have h3 := login_contract ⟨none, some "other@x.com", some "secret1"⟩ fxUsers1 (by decide)
    "other@x.com" "secret1" rfl rfl (by decide) (by decide)
  refine ⟨?_, ?_, ?_⟩
  · exact (h1.1 ⟨"a@x.com"⟩).mpr
      ⟨⟨1, "a@x.com", bcryptHashWith "s1" "secret1"⟩, by decide, by decide, by decide, rfl⟩
  · exact h2.2.2 ⟨1, "a@x.com", bcryptHashWith "s1" "secret1"⟩ (by decide) (by decide) (by decide)
  · exact h3.2.1 (by decide)

theorem find?_append_right {α : Type} (p : α → Bool) (l1 l2 : List α)
    (h : ∀ x ∈ l1, p x = false) : (l1 ++ l2).find? p = l2.find? p := by
  induction l1 with
  | nil => rfl
  | cons a t ih =>
    have ha := h a (List.mem_cons_self a t)
    rw [List.cons_append, List.find?_cons_of_neg _ (by simp [ha])]
    exact ih (fun x hx => h x (List.mem_cons_of_mem a hx))

theorem find?_map_comm {α β : Type} (f : α → β) (p : β → Bool) (l : List α) :
    (l.map f).find? p = (l.find? (fun a => p (f a))).map f := by
  induction l with
  | nil => rfl
  | cons a t ih =>
    rw [List.map_cons, List.find?_cons, List.find?_cons]
    by_cases hp : p (f a) = true
    · simp [hp]
    · simp only [Bool.not_eq_true] at hp
      simp [hp, ih]

theorem filter_length_map_keyed {α : Type} (f : α → α) (p : α → Bool)
    (hf : ∀ r, p (f r) = p r) (l : List α) :
    ((l.map f).filter p).length = (l.filter p).length := by
  induction l with
  | nil => rfl
  | cons a t ih =>
    rw [List.map_cons, List.filter_cons, List.filter_cons, hf a]
    by_cases ha : p a = true
    · simp [ha, ih]
    · simp [ha, ih]

theorem postProfile_count (b : ProfileBody) (modNow createdNow : String) (db : ProfilesDb)
    (e : String) (hbe : b.userEmail = some e) (he : e ≠ "") :
    profileCount (postProfile b modNow createdNow db).1 e
      = if profileCount db e = 0 then 1 else profileCount db e := by
  by_cases hany : db.rows.any (fun r => r.user_email == some e) = true
  · have hpos : profileCount db e ≠ 0 := by
      rw [List.any_eq_true] at hany
      obtain ⟨r, hr, hp⟩ := hany
      have hm : r ∈ db.rows.filter (fun r => r.user_email == some e) :=
        List.mem_filter.mpr ⟨hr, hp⟩
      have := List.length_pos.mpr (List.ne_nil_of_mem hm)
      show (db.rows.filter (fun r => r.user_email == some e)).length ≠ 0
      omega
    rw [if_neg hpos]
    show ((postProfile b modNow createdNow db).1.rows.filter
      (fun r => r.user_email == some e)).length = _
    simp only [postProfile, hbe, if_neg he, hany, if_true]
    exact filter_length_map_keyed _ _ (fun r => by
      by_cases hr : (r.user_email == some e) = true
      · simp [hr, profileUpdateRow]
      · simp [hr]) db.rows
  · have hzero : profileCount db e = 0 := by
      show (db.rows.filter (fun r => r.user_email == some e)).length = 0
      have : db.rows.filter (fun r => r.user_email == some e) = [] := by
        rw [List.filter_eq_nil_iff]
        intro r hr hp
        exact hany (List.any_eq_true.mpr ⟨r, hr, hp⟩)
      rw [this]
      rfl
    rw [if_pos hzero]
    show ((postProfile b modNow createdNow db).1.rows.filter
      (fun r => r.user_email == some e)).length = 1
    have hanyf : db.rows.any (fun r => r.user_email == some e) = false :=
      Bool.eq_false_iff.mpr hany
    simp only [postProfile, hbe, if_neg he, hanyf, Bool.false_eq_true, if_false]
    rw [List.filter_append]
    have h1 : db.rows.filter (fun r => r.user_email == some e) = [] :=
      List.length_eq_zero.mp hzero
    rw [h1]
    simp [profileNewRow, hbe]


/-- C3: the profile write is an upsert keyed on `user_email`: when a row with
the given email exists, every matching row is updated in place (with
`modified_date` refreshed) and nothing is inserted; otherwise exactly one new
row is appended.  Starting from a state with at most one row per email, writing
twice in a row leaves exactly one profile row for that email. -/
theorem profile_upsert_singleton (b : ProfileBody) (modNow createdNow : String)
    (db : ProfilesDb) (e : String) (hbe : b.userEmail = some e) (he : e ≠ "") :
    ((∃ r ∈ db.rows, r.user_email = some e) →
      (postProfile b modNow createdNow db).1.rows.length = db.rows.length ∧
      (postProfile b modNow createdNow db).2 = .ok "Profile updated successfully" ∧
      (∀ r ∈ (postProfile b modNow createdNow db).1.rows, r.user_email = some e →
        r.modified_date = some modNow) ∧
      (∀ r ∈ db.rows, r.user_email ≠ some e →
        r ∈ (postProfile b modNow createdNow db).1.rows)) ∧
    ((∀ r ∈ db.rows, r.user_email ≠ some e) →
      (postProfile b modNow createdNow db).2 = .ok "Profile created successfully" ∧
      ∃ nr : ProfileRow, nr.user_email = some e ∧ nr.created_date = some createdNow ∧
        nr.modified_date = some modNow ∧
        (postProfile b modNow createdNow db).1.rows = db.rows ++ [nr]) ∧
    (profileCount db e ≤ 1 →
      profileCount (postProfile b modNow createdNow
        ((postProfile b modNow createdNow db).1)).1 e = 1) := by
  refine ⟨?_, ?_, ?_⟩
  · intro ⟨r0, hr0, hr0e⟩
    have hany : db.rows.any (fun r => r.user_email == some e) = true :=
      List.any_eq_true.mpr ⟨r0, hr0, by simpa using hr0e⟩
    have hpost : postProfile b modNow createdNow db
        = ({ db with rows := db.rows.map (fun r =>
            if r.user_email == some e then profileUpdateRow b modNow r else r) },
          .ok "Profile updated successfully") := by
      simp [postProfile, hbe, he, hany]
    refine ⟨?_, ?_, ?_, ?_⟩
    · rw [hpost]
      simp
    · rw [hpost]
    · intro r hr hre
      rw [hpost] at hr
      have hr2 : r ∈ db.rows.map (fun r =>
          if r.user_email == some e then profileUpdateRow b modNow r else r) := hr
      rw [List.mem_map] at hr2
      obtain ⟨r1, hr1, hr1eq⟩ := hr2
      by_cases hp : (r1.user_email == some e) = true
      · rw [← hr1eq]
        simp [hp, profileUpdateRow]
      · rw [← hr1eq] at hre
        rw [if_neg hp] at hre
        exact absurd (by simpa using hre) hp
    · intro r hr hre
      have hrne : (r.user_email == some e) = false := by simpa using hre
      rw [hpost]
      show r ∈ db.rows.map (fun r =>
        if r.user_email == some e then profileUpdateRow b modNow r else r)
      rw [List.mem_map]
      exact ⟨r, hr, by simp [hrne]⟩
  · intro hfresh
    have hanyf : db.rows.any (fun r => r.user_email == some e) = false := by
      rw [Bool.eq_false_iff]
      intro hc
      rw [List.any_eq_true] at hc
      obtain ⟨u, hu, hp⟩ := hc
      exact hfresh u hu (by simpa using hp)
    have hpost : postProfile b modNow createdNow db
        = ({ rows := db.rows ++ [profileNewRow b modNow createdNow db.nextId],
             nextId := db.nextId + 1 },
          .ok "Profile created successfully") := by
      simp [postProfile, hbe, he, hanyf]
    refine ⟨by rw [hpost], profileNewRow b modNow createdNow db.nextId,
      by simp [profileNewRow, hbe], rfl, rfl, by rw [hpost]⟩
  · intro hcnt
    rw [postProfile_count b modNow createdNow _ e hbe he,
      postProfile_count b modNow createdNow db e hbe he]
    split_ifs <;> omega

/-- C3 witness: writing the concrete profile twice on an empty store creates on
the first call, updates on the second, and leaves exactly one row. -/
theorem profile_upsert_singleton_witness :
    (postProfile fxProfileBody fxNow fxNow fxProfiles0).2
      = .ok "Profile created successfully" ∧
    (postProfile fxProfileBody fxNow fxNow
      ((postProfile fxProfileBody fxNow fxNow fxProfiles0).1)).2
      = .ok "Profile updated successfully" ∧
    profileCount (postProfile fxProfileBody fxNow fxNow
      ((postProfile fxProfileBody fxNow fxNow fxProfiles0).1)).1 "u@x.com" = 1 := by
  have h := profile_upsert_singleton fxProfileBody fxNow fxNow fxProfiles0 "u@x.com"
    rfl (by decide)
  have h2 := profile_upsert_singleton fxProfileBody fxNow fxNow
    ((postProfile fxProfileBody fxNow fxNow fxProfiles0).1) "u@x.com" rfl (by decide)
  refine ⟨(h.2.1 (by decide)).1, ?_, h.2.2 (by decide)⟩
  obtain ⟨nr, hnr, _, _, hrows⟩ := (h.2.1 (by decide)).2
  exact (h2.1 ⟨nr, by rw [hrows]; simp, hnr⟩).2.1

theorem jsonStringify_ne_empty (j : Json) : jsonStringify j ≠ "" := by
  obtain ⟨c, t, hct, _, _⟩ := strJ_cons j
  intro h
  have hd : (jsonStringify j).data = ("" : String).data := by rw [h]
  rw [show (jsonStringify j).data = strJ j from rfl, hct] at hd
  simp at hd

theorem parseListField_stringify (j : Json) :
    parseListField (some (jsonStringify j)) = .ok j := by
  simp [parseListField, jsonStringify_ne_empty j, jsonParse_stringify j]

/-- After a profile write, the first stored row for the email holds the five
serialised list fields of the body. -/
theorem postProfile_find (b : ProfileBody) (modNow createdNow : String)
    (db : ProfilesDb) (e : String) (hbe : b.userEmail = some e) (he : e ≠ "") :
    ∃ row : ProfileRow,
      (postProfile b modNow createdNow db).1.rows.find? (fun r => r.user_email == some e)
        = some row ∧
      row.user_email = some e ∧
      row.degrees = some (jsonStringify (.arr (b.degrees.getD .nil))) ∧
      row.employment = some (jsonStringify (.arr (b.employment.getD .nil))) ∧
      row.courses = some (jsonStringify (.arr (b.courses.getD .nil))) ∧
      row.grants = some (jsonStringify (.arr (b.grants.getD .nil))) ∧
      row.awards = some (jsonStringify (.arr (b.awards.getD .nil))) := by
  by_cases hany : db.rows.any (fun r => r.user_email == some e) = true
  · have hpost : (postProfile b modNow createdNow db).1.rows
        = db.rows.map (fun r =>
            if r.user_email == some e then profileUpdateRow b modNow r else r) := by
      simp [postProfile, hbe, he, hany]
    rw [List.any_eq_true] at hany
    obtain ⟨r0, hr0, hp0⟩ := hany
    have hsome : (db.rows.find? (fun r => r.user_email == some e)).isSome := by
      rw [List.find?_isSome]
      exact ⟨r0, hr0, hp0⟩
    obtain ⟨r1, hr1⟩ := Option.isSome_iff_exists.mp hsome
    have hp1 : (r1.user_email == some e) = true := by
      have hp1x := List.find?_some hr1
      simpa using hp1x
    have hcomm := find?_map_comm
      (fun r => if r.user_email == some e then profileUpdateRow b modNow r else r)
      (fun r => r.user_email == some e) db.rows
    have hpred : (fun r : ProfileRow =>
        (if r.user_email == some e then profileUpdateRow b modNow r else r).user_email
          == some e) = (fun r : ProfileRow => r.user_email == some e) := by
      funext r
      by_cases hr : (r.user_email == some e) = true
      · simp [hr, profileUpdateRow]
      · simp [hr]
    refine ⟨profileUpdateRow b modNow r1, ?_, ?_, rfl, rfl, rfl, rfl, rfl⟩
    · rw [hpost, hcomm]
      have heq2 : (fun a : ProfileRow =>
          (if a.user_email == some e then profileUpdateRow b modNow a else a).user_email
            == some e) = (fun r : ProfileRow => r.user_email == some e) := hpred
      rw [heq2, hr1]
      simp only [Option.map_some']
      rw [if_pos hp1]
    · simp [profileUpdateRow]
      simpa using hp1
  · have hanyf : db.rows.any (fun r => r.user_email == some e) = false :=
      Bool.eq_false_iff.mpr hany
    have hpost : (postProfile b modNow createdNow db).1.rows
        = db.rows ++ [profileNewRow b modNow createdNow db.nextId] := by
      simp [postProfile, hbe, he, hanyf]
    have hnonefirst : ∀ x ∈ db.rows, (x.user_email == some e) = false := by
      intro x hx
      rw [Bool.eq_false_iff]
      intro hc
      exact hany (List.any_eq_true.mpr ⟨x, hx, hc⟩)
    refine ⟨profileNewRow b modNow createdNow db.nextId, ?_, ?_, rfl, rfl, rfl, rfl, rfl⟩
    · rw [hpost, find?_append_right _ _ _ hnonefirst]
      have hmatch : ((profileNewRow b modNow createdNow db.nextId).user_email
          == some e) = true := by
        simp [profileNewRow, hbe]
      rw [List.find?_cons]
      simp [hmatch]
    · simp [profileNewRow, hbe]

/-- C4: writing a profile stores each JSON-list field (`degrees`, `employment`,
`courses`, `grants`, `awards`) as serialised text, and reading the profile back
decodes it to an equal list, for empty and non-empty lists alike; a stored
`NULL` (or empty string) decodes to the empty list without any error. -/
theorem profile_json_fields_roundtrip (b : ProfileBody) (modNow createdNow : String)
    (db : ProfilesDb) (e : String) (hbe : b.userEmail = some e) (he : e ≠ "") :
    (∃ v : ProfileView,
      getProfile (postProfile b modNow createdNow db).1 e = .ok (some v) ∧
      v.degrees = Json.arr (b.degrees.getD .nil) ∧
      v.employment = Json.arr (b.employment.getD .nil) ∧
      v.courses = Json.arr (b.courses.getD .nil) ∧
      v.grants = Json.arr (b.grants.getD .nil) ∧
      v.awards = Json.arr (b.awards.getD .nil)) ∧
    parseListField none = .ok (Json.arr .nil) ∧
    parseListField (some "") = .ok (Json.arr .nil) := by
  obtain ⟨row, hfind, hue, hdg, hem, hco, hgr, haw⟩ :=
    postProfile_find b modNow createdNow db e hbe he
  refine ⟨?_, rfl, rfl⟩
  rw [getProfile, hfind]
  simp only [hdg, hem, hco, hgr, haw, parseListField_stringify]
  exact ⟨_, rfl, rfl, rfl, rfl, rfl, rfl⟩

/-- C4 witness: the concrete profile body round-trips its one-element `degrees`
list and its empty `courses` list through the store. -/
theorem profile_json_fields_roundtrip_witness :
    ∃ v : ProfileView,
      getProfile (postProfile fxProfileBody fxNow fxNow fxProfiles0).1 "u@x.com"
        = .ok (some v) ∧
      v.degrees = Json.arr (.cons fxDegree .nil) ∧
      v.courses = Json.arr .nil ∧
      v.awards = Json.arr .nil := by
  have h := (profile_json_fields_roundtrip fxProfileBody fxNow fxNow fxProfiles0
    "u@x.com" rfl (by decide)).1
  obtain ⟨v, hv, hdg, _, hco, _, haw⟩ := h
  refine ⟨v, hv, ?_, ?_, ?_⟩
  · rw [hdg]
    rfl
  · rw [hco]
    rfl
  · rw [haw]
    rfl

/-! ## C6, C7, C8 -/

/-- C6 (amended): the boolean attributes are persisted as 0/1 integers
(`isAllDay ? 1 : 0` on the write path) and the enhanced `GET /events/:email`
read path converts them back with `Boolean(...)`: its camelCase members always
hold `true`/`false`, and a written `isAllDay: true` reads back as `true`
(`0`/absent as `false`).  The legacy `/calendar_events` read path performs no
such conversion (see the counterexample). -/
theorem events_bool_conversion (b : EventBody) (now : String) (db : EventsDb) (r : EventRow) :
    ((postEvent b now db).2.is_all_day = some (if jsTruthyB b.isAllDay then 1 else 0) ∧
      (postEvent b now db).2.is_online = some (if jsTruthyB b.isOnline then 1 else 0) ∧
      (postEvent b now db).2.repeat_weekly
        = some (if jsTruthyB b.repeatWeekly then 1 else 0)) ∧
    (jsonLookup "isAllDay" (eventResponseRow r) = some (.bool (jsBoolOfCol r.is_all_day)) ∧
      jsonLookup "isOnline" (eventResponseRow r) = some (.bool (jsBoolOfCol r.is_online)) ∧
      jsonLookup "repeatWeekly" (eventResponseRow r)
        = some (.bool (jsBoolOfCol r.repeat_weekly))) ∧
    jsonLookup "isAllDay" (eventResponseRow ((postEvent b now db).2))
      = some (.bool (jsTruthyB b.isAllDay)) ∧
    jsBoolOfCol (some 0) = false ∧ jsBoolOfCol none = false ∧ jsBoolOfCol (some 1) = true := by
  refine ⟨⟨rfl, rfl, rfl⟩, ⟨rfl, rfl, rfl⟩, ?_, rfl, rfl, rfl⟩
  have h1 : jsonLookup "isAllDay" (eventResponseRow ((postEvent b now db).2))
      = some (.bool (jsBoolOfCol (some (if jsTruthyB b.isAllDay then 1 else 0)))) := rfl
  rw [h1]
  cases hb : jsTruthyB b.isAllDay <;> rfl

/-- C6 counterexample: the stored all-day event holds `is_all_day = 1`; the
legacy `GET /calendar_events/:email` serialises the row verbatim, so its
response row has no `isAllDay` member at all and its `is_all_day` member is the
raw integer `1`, not `true` — while the enhanced read of the same row does
answer `isAllDay: true`. -/
theorem legacy_read_bool_counterexample :
    fxStoredEvent.is_all_day = some 1 ∧
    getCalendarEventsLegacy fxEventsDb1 "u@x.com" = [fxStoredEvent] ∧
    getCalendarEventsLegacyResponse fxEventsDb1 "u@x.com"
      = Json.arr (.cons (legacyEventRowJson fxStoredEvent) .nil) ∧
    jsonLookup "isAllDay" (legacyEventRowJson fxStoredEvent) = none ∧
    jsonLookup "is_all_day" (legacyEventRowJson fxStoredEvent) = some (.num 1) ∧
    jsonLookup "isAllDay" (eventResponseRow fxStoredEvent) = some (.bool true) := by
  refine ⟨rfl, rfl, rfl, rfl, rfl, rfl⟩

/-- C7 (amended): the list-by-owner reads that carry an `ORDER BY` (ideas,
notes, career goals, future work, deadlines, enhanced events, stage history,
legacy calendar events) return a permutation of the owner's rows sorted by
their respective order — the legacy calendar read orders by `event_date`
alone, without the `start_time` tiebreak of the enhanced read — while
`GET /projects/:email` and `GET /meetings/:email` have no `ORDER BY` and
answer the owner's rows in stored order.  Each is a filter (up to
permutation) of the table, so an owner with no rows gets `[]`, never an
error. -/
theorem list_by_owner_contract (idb : IdeasDb) (ndb : NotesDb) (fdb : FutureWorkDb)
    (ddb : DeadlinesDb) (edb : EventsDb)
    (cdb : CareerDb) (ptbl : List ProjectRow) (mtbl : List MeetingRow)
    (email : String) (gid : Nat) :
    ((getIdeas idb email).Perm (idb.rows.filter (fun r => r.user_email == some email)) ∧
      List.Sorted (ordLe ideasOrder) (getIdeas idb email)) ∧
    ((getNotes ndb email).Perm (ndb.rows.filter (fun r => r.user_email == some email)) ∧
      List.Sorted (ordLe notesOrder) (getNotes ndb email)) ∧
    ((getFutureWork fdb email).Perm
        (fdb.rows.filter (fun r => r.user_email == some email)) ∧
      List.Sorted (ordLe futureWorkOrder) (getFutureWork fdb email)) ∧
    ((getCareerGoals cdb email).Perm
        (cdb.goals.filter (fun r => r.user_email == some email)) ∧
      List.Sorted (ordLe careerGoalsOrder) (getCareerGoals cdb email)) ∧
    ((getDeadlines ddb email).Perm (ddb.rows.filter (fun r => r.user_email == some email)) ∧
      List.Sorted (ordLe deadlinesOrder) (getDeadlines ddb email)) ∧
    ((getEvents edb email).Perm (edb.rows.filter (fun r => r.user_email == some email)) ∧
      List.Sorted (ordLe eventsOrder) (getEvents edb email)) ∧
    ((getStageHistory cdb gid).Perm (cdb.history.filter (fun h => h.goal_id == some gid)) ∧
      List.Sorted (ordLe stageHistoryOrder) (getStageHistory cdb gid)) ∧
    ((getCalendarEventsLegacy edb email).Perm
        (edb.rows.filter (fun r => r.user_email == some email)) ∧
      List.Sorted (ordLe legacyEventsOrder) (getCalendarEventsLegacy edb email)) ∧
    getProjects ptbl email = ptbl.filter (fun r => r.owner_email == some email) ∧
    getMeetings mtbl email = mtbl.filter (fun r => r.colleague_email == some email) := by
  refine ⟨⟨perm_sortRows ideasOrder _, sorted_sortRows ideasOrder lawful_ideasOrder _⟩,
    ⟨perm_sortRows notesOrder _, sorted_sortRows notesOrder lawful_notesOrder _⟩,
    ⟨perm_sortRows futureWorkOrder _, sorted_sortRows futureWorkOrder lawful_futureWorkOrder _⟩,
    ⟨perm_sortRows careerGoalsOrder _, sorted_sortRows careerGoalsOrder lawful_careerGoalsOrder _⟩,
    ⟨perm_sortRows deadlinesOrder _, sorted_sortRows deadlinesOrder lawful_deadlinesOrder _⟩,
    ⟨perm_sortRows eventsOrder _, sorted_sortRows eventsOrder lawful_eventsOrder _⟩,
    ⟨perm_sortRows stageHistoryOrder _,
      sorted_sortRows stageHistoryOrder lawful_stageHistoryOrder _⟩,
    ⟨perm_sortRows legacyEventsOrder _,
      sorted_sortRows legacyEventsOrder lawful_legacyEventsOrder _⟩,
    rfl, rfl⟩

/-- C7 counterexample: two stored events of the same owner share an
`event_date` but have out-of-order start times; the legacy
`GET /calendar_events/:email` (ordering by `event_date` alone, with the stable
sort keeping the stored tie order) answers the 10:00 event before the 09:00
one, so its output is not sorted in the claimed
`event_date ASC, start_time ASC` order. -/
theorem legacy_order_counterexample :
    fxTieEventA.event_date = fxTieEventB.event_date ∧
    fxTieEventA.start_time = some "10:00" ∧
    fxTieEventB.start_time = some "09:00" ∧
    getCalendarEventsLegacy fxTieDb "u@x.com" = [fxTieEventA, fxTieEventB] ∧
    ¬ List.Sorted (ordLe eventsOrder) (getCalendarEventsLegacy fxTieDb "u@x.com") := by
  refine ⟨rfl, rfl, rfl, by decide, ?_⟩
  intro hs
  have h2 := List.rel_of_sorted_cons (by exact (by decide : getCalendarEventsLegacy fxTieDb
    "u@x.com" = [fxTieEventA, fxTieEventB]) ▸ hs) fxTieEventB (by decide)
  exact absurd h2 (by decide)

/-- C8 (amended): the creates of ideas, notes, career goals, future work,
deadlines and legacy calendar events store `created_date || now`: an omitted
`created_date` (or an empty string, which JavaScript `||` treats as falsy)
yields the server timestamp and a non-empty supplied value is stored verbatim.
`POST /events`, however, never reads the body's `created_date` and always
stamps the server time, and the insert arm of `POST /profile` likewise stamps
the server time into the new row whatever `created_date` the body carries
(`POST /projects` stores no creation timestamp at all: the table has no such
column). -/
theorem created_date_defaults (ib : IdeaBody) (nb : NoteBody) (cb : CareerGoalBody)
    (fb : FutureWorkBody) (dlb : DeadlineBody) (lb : LegacyEventBody) (eb : EventBody)
    (pb : ProfileBody) (pid : Nat)
    (now : String) (idb : IdeasDb) (ndb : NotesDb) (cdb : CareerDb)
    (fdb : FutureWorkDb) (ddb : DeadlinesDb) (edb1 edb2 : EventsDb) :
    (postIdea ib now idb).2.created_date = some (jsOrStr ib.created_date now) ∧
    (postNote nb now ndb).2.created_date = some (jsOrStr nb.created_date now) ∧
    (postCareerGoal cb now cdb).2.created_date = some (jsOrStr cb.created_date now) ∧
    (postFutureWork fb now fdb).2.created_date = some (jsOrStr fb.created_date now) ∧
    (postDeadline dlb now ddb).2.created_date = some (jsOrStr dlb.created_date now) ∧
    (postCalendarEventLegacy lb now edb1).2.created_date
      = some (jsOrStr lb.created_date now) ∧
    (postEvent eb now edb2).2.created_date = some now ∧
    (profileNewRow pb now now pid).created_date = some now ∧
    jsOrStr none now = now ∧
    (∀ s : String, ¬ s = "" → jsOrStr (some s) now = s) := by
  refine ⟨rfl, rfl, rfl, rfl, rfl, rfl, rfl, rfl, rfl, ?_⟩
  intro s hs
  simp [jsOrStr, hs]

/-- C8 counterexample: the `POST /events` request carries
`created_date = fxOld`, yet the stored row's `created_date` is the server's
`fxNow` — the supplied value is not stored verbatim on the calendar-event
create; the `POST /profile` insert arm ignores a supplied `created_date` the
same way, stamping the server time into its one new row. -/
theorem post_event_created_date_counterexample :
    fxEventBody.created_date = some fxOld ∧
    ¬ fxOld = fxNow ∧
    (postEvent fxEventBody fxNow fxEventsDb0).2.created_date = some fxNow ∧
    ¬ (postEvent fxEventBody fxNow fxEventsDb0).2.created_date = some fxOld ∧
    fxProfileBodyCd.created_date = some fxOld ∧
    (postProfile fxProfileBodyCd fxNow fxNow fxProfiles0).1.rows.map
      (fun r => r.created_date) = [some fxNow] ∧
    ¬ (postProfile fxProfileBodyCd fxNow fxNow fxProfiles0).1.rows.map
      (fun r => r.created_date) = [some fxOld] := by
  refine ⟨rfl, by decide, rfl, by decide, rfl, by decide, by decide⟩
